import Mathlib

/-!
Verification development for the iploop proxy-rotating SOCKS5 server.

The definitions below are a shallow embedding of the Go sources:
  - pkg/proxy/rotator.go   (the current revision: the one with the `seen`
    dedup map, `requestsPer` stickiness and the `ErrAllProxiesDead` error,
    which is the revision exercised by pkg/proxy/rotator_test.go)
  - the proxy endpoint parser (NewProxy)
  - pkg/server/server.go   (handleNormal, connectToTarget, readRequest)
  - pkg/server/dialer.go   (base64Encode)

Modelling conventions:
  - A `*proxy.Proxy` pointer is modelled by a numeric identity (`Nat`);
    the mutable per-endpoint `alive` flag lives in a heap `alive : Nat → Bool`
    carried next to the rotator state, so that pointer aliasing between the
    `proxies` slice, the `shuffled` slice and `current` behaves as in Go.
  - The endpoint fingerprint `Proxy.String()` is abstracted by a function
    `fp : Nat → String` on identities.
  - `rand.Shuffle` is abstracted by a function `shuffleFn : List Nat → List Nat`;
    theorems that need it assume it permutes (or preserves the length of) its
    input, which `rand.Shuffle` does by construction.
  - The `sync.Mutex` is elided: every rotator operation is atomic in Go
    (it holds the mutex for its whole body), so the sequential semantics
    below is exactly the per-operation semantics.
  - Go slice indexing is modelled by `List.get?`; an out-of-range access or
    a modulo by zero (both of which panic in Go) is made visible as the
    explicit result `NextRes.outOfRange`.
-/

set_option maxHeartbeats 1000000

namespace IpLoop

/-- Rotation strategies (rotator.go: RotationRandom, RotationSequential). -/
inductive RotStrategy where
  | random
  | sequential
deriving DecidableEq

/-- Errors produced by `Rotator.Next`: the "no proxies available" error and
`ErrAllProxiesDead`. -/
inductive RotErr where
  | noProxies
  | allDead
deriving DecidableEq

/-- The `Rotator` struct of rotator.go.  Endpoints are pointer identities
(`Nat`); `shuffled = none` models the nil slice.  The scratch buffer
`poolCache` is kept because `AddProxy` and `MarkDead` reset it and `getPool`
rewrites it, exactly as in the source. -/
structure Rotator where
  proxies : List Nat
  seen : List String
  strategy : RotStrategy
  skipDead : Bool
  requestsPer : Int
  current : Option Nat
  counter : Nat
  seqIndex : Nat
  shuffled : Option (List Nat)
  shuffleIdx : Nat
  poolCache : List Nat
deriving DecidableEq

/-- Rotator state together with the heap of per-endpoint `alive` flags. -/
structure RotState where
  rot : Rotator
  alive : Nat → Bool

/-- rotator.go `NewRotator`. -/
def NewRotator (strategy : RotStrategy) (skipDead : Bool) (requestsPer : Int) :
    Rotator :=
  { proxies := [], seen := [], strategy := strategy, skipDead := skipDead,
    requestsPer := requestsPer, current := none, counter := 0, seqIndex := 0,
    shuffled := none, shuffleIdx := 0, poolCache := [] }

/-- A fresh rotator state; endpoints are created alive (`NewProxy` stores
`alive := true`), so the heap starts all-true. -/
def initRotState (strategy : RotStrategy) (skipDead : Bool)
    (requestsPer : Int) : RotState :=
  { rot := NewRotator strategy skipDead requestsPer, alive := fun _ => true }

/-- rotator.go `AddProxy`: dedup on `p.String()` via the `seen` set; on
insertion append to `proxies`, truncate `poolCache`, nil out `shuffled`. -/
def AddProxy (fp : Nat → String) (p : Nat) (s : RotState) : RotState :=
  if fp p ∈ s.rot.seen then s
  else
    { s with rot := { s.rot with
        seen := fp p :: s.rot.seen,
        proxies := s.rot.proxies ++ [p],
        poolCache := [],
        shuffled := none } }

/-- rotator.go `getPool`: with `skipDead` false the full `proxies` slice;
otherwise the alive subsequence is rebuilt into `poolCache` and returned,
or `ErrAllProxiesDead` if it is empty. -/
def getPool (s : RotState) : Except RotErr (List Nat) × RotState :=
  if s.rot.skipDead = false then (Except.ok s.rot.proxies, s)
  else
    let cache := s.rot.proxies.filter (fun p => s.alive p)
    let s2 := { s with rot := { s.rot with poolCache := cache } }
    if cache.isEmpty then (Except.error RotErr.allDead, s2)
    else (Except.ok cache, s2)

/-- Result of one `Next` call.  `outOfRange` marks a slice access outside
bounds or a modulo by zero, which would panic in Go. -/
inductive NextRes where
  | ok (p : Nat)
  | err (e : RotErr)
  | outOfRange
deriving DecidableEq

/-- The `RotationSequential` arm of rotator.go `Next`: index
`seqIndex % len(pool)` (a panic surfaces as `outOfRange` when the pool is
empty), then advance `seqIndex` and record `current`/`counter`. -/
def nextSeq (pool : List Nat) (s2 : RotState) : NextRes × RotState :=
  let idx := s2.rot.seqIndex % pool.length
  match pool.get? idx with
  | none => (NextRes.outOfRange, s2)
  | some p =>
    (NextRes.ok p, { s2 with rot := { s2.rot with
        seqIndex := idx + 1, current := some p, counter := 1 } })

/-- The `RotationRandom` arm of rotator.go `Next`: reshuffle when the cached
permutation is nil or exhausted, or (under `skipDead`) when the pool size
changed; then hand out the entry at the cursor and advance it.  `rand.Shuffle`
applied to a copy of `pool` is `shuffleFn pool`. -/
def nextRandom (shuffleFn : List Nat → List Nat) (pool : List Nat)
    (s2 : RotState) : NextRes × RotState :=
  let shuf0 := s2.rot.shuffled.getD []
  let needReshuffle :=
    (s2.rot.shuffled.isNone || decide (shuf0.length ≤ s2.rot.shuffleIdx))
      || (s2.rot.skipDead && decide (shuf0.length ≠ pool.length))
  let pair := if needReshuffle then (shuffleFn pool, 0)
              else (shuf0, s2.rot.shuffleIdx)
  match pair.1.get? pair.2 with
  | none => (NextRes.outOfRange, s2)
  | some p =>
    (NextRes.ok p, { s2 with rot := { s2.rot with
        shuffled := some pair.1, shuffleIdx := pair.2 + 1,
        current := some p, counter := 1 } })

/-- The strategy dispatch of rotator.go `Next` (the part after the sticky
short-circuit): pool selection, then the sequential or random arm. -/
def nextFromPool (shuffleFn : List Nat → List Nat) (s : RotState) :
    NextRes × RotState :=
  let gp := getPool s
  match gp.1 with
  | Except.error e => (NextRes.err e, gp.2)
  | Except.ok pool =>
    match gp.2.rot.strategy with
    | RotStrategy.sequential => nextSeq pool gp.2
    | RotStrategy.random => nextRandom shuffleFn pool gp.2

/-- rotator.go `Next`: the empty-pool error, the requests-per-proxy sticky
short-circuit (stay on `current` while the counter allows it and, under
`skipDead`, while it is alive), then strategy dispatch. -/
def Next (shuffleFn : List Nat → List Nat) (s : RotState) :
    NextRes × RotState :=
  if s.rot.proxies.isEmpty then (NextRes.err RotErr.noProxies, s)
  else
    match s.rot.current with
    | some c =>
      if ((s.rot.requestsPer == -1
            || decide ((s.rot.counter : Int) < s.rot.requestsPer))
          && (!s.rot.skipDead || s.alive c)) then
        (NextRes.ok c,
          { s with rot := { s.rot with counter := s.rot.counter + 1 } })
      else nextFromPool shuffleFn s
    | none => nextFromPool shuffleFn s

/-- rotator.go `MarkDead`: kill the endpoint; under `skipDead` invalidate the
cached shuffle and pool. -/
def MarkDead (p : Nat) (s : RotState) : RotState :=
  let s2 := { s with alive := fun q => if q = p then false else s.alive q }
  if s2.rot.skipDead then
    { s2 with rot := { s2.rot with shuffled := none, poolCache := [] } }
  else s2

/-- rotator.go `Count`. -/
def Count (s : RotState) : Nat := s.rot.proxies.length

/-- One client-visible rotator operation. -/
inductive RotOp where
  | add (p : Nat)
  | next
  | markDead (p : Nat)

/-- Apply one operation (the result of `next` is discarded; only the state
evolution matters for reachability). -/
def applyOp (fp : Nat → String) (shuffleFn : List Nat → List Nat)
    (s : RotState) : RotOp → RotState
  | RotOp.add p => AddProxy fp p s
  | RotOp.next => (Next shuffleFn s).2
  | RotOp.markDead p => MarkDead p s

/-- Run a sequence of operations from a fresh rotator. -/
def runOps (fp : Nat → String) (shuffleFn : List Nat → List Nat)
    (strategy : RotStrategy) (skipDead : Bool) (requestsPer : Int)
    (ops : List RotOp) : RotState :=
  ops.foldl (applyOp fp shuffleFn) (initRotState strategy skipDead requestsPer)

/-- Identity-based fingerprint used in concrete scenarios: distinct pointer
identities carry distinct `scheme://host:port` strings. -/
def fpId : Nat → String := fun n => toString n

end IpLoop


namespace IpLoop

/-- C1: with `skip_dead=true` and every endpoint dead, `Next` fails with
`ErrAllProxiesDead` and leaves every endpoint's alive flag untouched (no
auto-resurrection); moreover the concrete scenario
pool `[P1, P2]`, Sequential, `skip_dead=true`:
`next() → P1; mark_dead(P1); next() → P2; mark_dead(P2); next() → AllProxiesDead`
holds. -/
theorem c1_all_dead_errors_no_resurrect :
    (∀ (shuffleFn : List Nat → List Nat) (s : RotState),
      s.rot.skipDead = true →
      s.rot.proxies ≠ [] →
      (∀ p ∈ s.rot.proxies, s.alive p = false) →
      (∀ c, s.rot.current = some c → c ∈ s.rot.proxies) →
      (Next shuffleFn s).1 = NextRes.err RotErr.allDead ∧
      (Next shuffleFn s).2.alive = s.alive) ∧
    (Next id (runOps fpId id RotStrategy.sequential true 1
        [RotOp.add 1, RotOp.add 2])).1 = NextRes.ok 1 ∧
    (Next id (runOps fpId id RotStrategy.sequential true 1
        [RotOp.add 1, RotOp.add 2, RotOp.next, RotOp.markDead 1])).1
      = NextRes.ok 2 ∧
    (Next id (runOps fpId id RotStrategy.sequential true 1
        [RotOp.add 1, RotOp.add 2, RotOp.next, RotOp.markDead 1, RotOp.next,
         RotOp.markDead 2])).1 = NextRes.err RotErr.allDead := by
  refine ⟨?_, by decide, by decide, by decide⟩
  intro shuffleFn s hskip hne hdead hcur
  have hfilter : s.rot.proxies.filter (fun p => s.alive p) = [] := by
    rw [List.filter_eq_nil_iff]
    intro p hp
    simp [hdead p hp]
  have hpool : nextFromPool shuffleFn s
      = (NextRes.err RotErr.allDead,
         { s with rot := { s.rot with poolCache := [] } }) := by
    unfold nextFromPool getPool
    rw [hskip]
    simp [hfilter]
  have hempty : s.rot.proxies.isEmpty = false := by
    simpa [List.isEmpty_iff] using hne
  unfold Next
  rw [hempty]
  simp only [Bool.false_eq_true, if_false]
  cases hc : s.rot.current with
  | none => simp [hpool]
  | some c =>
    have : s.alive c = false := hdead c (hcur c hc)
    simp [hskip, this, hpool]

/-- Witness for C1 (the all-dead state reached by the concrete scenario). -/
theorem c1_all_dead_errors_no_resurrect_witness :
    (Next id (runOps fpId id RotStrategy.sequential true 1
        [RotOp.add 1, RotOp.add 2, RotOp.next, RotOp.markDead 1, RotOp.next,
         RotOp.markDead 2])).1 = NextRes.err RotErr.allDead :=
  (c1_all_dead_errors_no_resurrect.1 id
    (runOps fpId id RotStrategy.sequential true 1
      [RotOp.add 1, RotOp.add 2, RotOp.next, RotOp.markDead 1, RotOp.next,
       RotOp.markDead 2])
    (by decide) (by decide) (by decide) (by decide)).1

end IpLoop



namespace IpLoop

/-- `getPool` only rewrites the scratch `poolCache`; the alive heap and all
other rotator fields are untouched. -/
theorem getPool_frame (s : RotState) :
    (getPool s).2.alive = s.alive ∧
    (getPool s).2.rot.proxies = s.rot.proxies ∧
    (getPool s).2.rot.seen = s.rot.seen ∧
    (getPool s).2.rot.strategy = s.rot.strategy ∧
    (getPool s).2.rot.skipDead = s.rot.skipDead ∧
    (getPool s).2.rot.requestsPer = s.rot.requestsPer ∧
    (getPool s).2.rot.current = s.rot.current ∧
    (getPool s).2.rot.counter = s.rot.counter ∧
    (getPool s).2.rot.seqIndex = s.rot.seqIndex ∧
    (getPool s).2.rot.shuffled = s.rot.shuffled ∧
    (getPool s).2.rot.shuffleIdx = s.rot.shuffleIdx := by
  by_cases hsd : s.rot.skipDead = false
  · rw [getPool, if_pos hsd]
    exact ⟨rfl, rfl, rfl, rfl, rfl, rfl, rfl, rfl, rfl, rfl, rfl⟩
  · rw [getPool, if_neg hsd]
    by_cases hemp :
        (s.rot.proxies.filter (fun p => s.alive p)).isEmpty = true
    · rw [if_pos hemp]
      exact ⟨rfl, rfl, rfl, rfl, rfl, rfl, rfl, rfl, rfl, rfl, rfl⟩
    · rw [if_neg hemp]
      exact ⟨rfl, rfl, rfl, rfl, rfl, rfl, rfl, rfl, rfl, rfl, rfl⟩

/-- Characterisation of a successful `getPool`: the pool is drawn from
`proxies`; under `skipDead` it is the nonempty alive subsequence, otherwise
it is all of `proxies`. -/
theorem getPool_ok_mem {s : RotState} {pool : List Nat}
    (h : (getPool s).1 = Except.ok pool) :
    (∀ p ∈ pool, p ∈ s.rot.proxies) ∧
    (s.rot.skipDead = true →
      (∀ p ∈ pool, s.alive p = true) ∧ pool ≠ []) ∧
    (s.rot.skipDead = false → pool = s.rot.proxies) := by
  by_cases hsd : s.rot.skipDead = false
  · rw [getPool, if_pos hsd] at h
    have hp : pool = s.rot.proxies := (Except.ok.inj h).symm
    subst hp
    refine ⟨fun p hp => hp, ?_, fun _ => rfl⟩
    intro ht
    rw [ht] at hsd
    cases hsd
  · have hsd2 : s.rot.skipDead = true := by
      cases hval : s.rot.skipDead
      · exact absurd hval hsd
      · rfl
    rw [getPool, if_neg hsd] at h
    by_cases hemp :
        (s.rot.proxies.filter (fun p => s.alive p)).isEmpty = true
    · rw [if_pos hemp] at h
      cases h
    · rw [if_neg hemp] at h
      have hp : pool = s.rot.proxies.filter (fun p => s.alive p) :=
        (Except.ok.inj h).symm
      subst hp
      refine ⟨fun p hp => (List.mem_filter.mp hp).1, ?_, ?_⟩
      · intro _
        refine ⟨fun p hp => by simpa using (List.mem_filter.mp hp).2, ?_⟩
        intro hnil
        rw [hnil] at hemp
        exact hemp rfl
      · intro hc
        rw [hc] at hsd2
        cases hsd2

end IpLoop

namespace IpLoop

/-- Reachability invariant of a rotator state: `current` and every cached
shuffle entry point into the pool, under `skipDead` the cached shuffle holds
only alive endpoints, fingerprints are unique, `seen` is exactly the
fingerprint set of the pool, and a set `current` implies the counter has been
bumped at least once. -/
def RotInv (fp : Nat → String) (s : RotState) : Prop :=
  (∀ c, s.rot.current = some c → c ∈ s.rot.proxies) ∧
  (∀ l, s.rot.shuffled = some l → ∀ p ∈ l, p ∈ s.rot.proxies) ∧
  (s.rot.skipDead = true →
    ∀ l, s.rot.shuffled = some l → ∀ p ∈ l, s.alive p = true) ∧
  (s.rot.proxies.map fp).Nodup ∧
  (∀ x, x ∈ s.rot.seen ↔ x ∈ s.rot.proxies.map fp) ∧
  (s.rot.current.isSome = true → 1 ≤ s.rot.counter)

theorem rotInv_init (fp : Nat → String) (strategy : RotStrategy)
    (skipDead : Bool) (requestsPer : Int) :
    RotInv fp (initRotState strategy skipDead requestsPer) := by
  refine ⟨?_, ?_, ?_, ?_, ?_, ?_⟩ <;>
    simp [initRotState, NewRotator]

theorem addProxy_inv {fp : Nat → String} {s : RotState} (p : Nat)
    (hinv : RotInv fp s) : RotInv fp (AddProxy fp p s) := by
  obtain ⟨hcur, hshuf, halive, hnodup, hseen, hcnt⟩ := hinv
  by_cases hmem : fp p ∈ s.rot.seen
  · rw [AddProxy, if_pos hmem]
    exact ⟨hcur, hshuf, halive, hnodup, hseen, hcnt⟩
  · rw [AddProxy, if_neg hmem]
    refine ⟨?_, ?_, ?_, ?_, ?_, ?_⟩
    · intro c hc
      exact List.mem_append_left _ (hcur c hc)
    · intro l hl
      cases hl
    · intro _ l hl
      cases hl
    · rw [List.map_append]
      refine List.Nodup.append hnodup (by simp) ?_
      intro x hx hy
      simp at hy
      subst hy
      exact hmem ((hseen (fp p)).mpr hx)
    · intro x
      simp only [List.map_append, List.mem_append, List.mem_cons,
        List.map_cons, List.map_nil, List.mem_singleton]
      constructor
      · intro hx
        cases hx with
        | inl h => exact Or.inr (by simpa using h)
        | inr h => exact Or.inl ((hseen x).mp h)
      · intro hx
        cases hx with
        | inl h => exact Or.inr ((hseen x).mpr h)
        | inr h => exact Or.inl (by simpa using h)
    · exact hcnt

theorem markDead_inv {fp : Nat → String} {s : RotState} (p : Nat)
    (hinv : RotInv fp s) : RotInv fp (MarkDead p s) := by
  obtain ⟨hcur, hshuf, halive, hnodup, hseen, hcnt⟩ := hinv
  rw [MarkDead]
  by_cases hsd : s.rot.skipDead = true
  · rw [if_pos hsd]
    refine ⟨hcur, ?_, ?_, hnodup, hseen, hcnt⟩
    · intro l hl
      cases hl
    · intro _ l hl
      cases hl
  · rw [if_neg hsd]
    refine ⟨hcur, hshuf, ?_, hnodup, hseen, hcnt⟩
    intro ht
    exact absurd ht hsd

end IpLoop


namespace IpLoop

/-- A successful sequential pick is the element at `seqIndex % len(pool)` and
the updated state rewrites only `seqIndex`, `current` and `counter`. -/
theorem nextSeq_ok {pool : List Nat} {s2 : RotState} {p : Nat}
    {s3 : RotState} (h : nextSeq pool s2 = (NextRes.ok p, s3)) :
    p ∈ pool ∧
    s3 = { s2 with rot := { s2.rot with
        seqIndex := s2.rot.seqIndex % pool.length + 1,
        current := some p, counter := 1 } } := by
  rw [nextSeq] at h
  cases hget : pool.get? (s2.rot.seqIndex % pool.length) with
  | none =>
    rw [hget] at h
    cases h
  | some q =>
    rw [hget] at h
    obtain ⟨h1, h2⟩ := Prod.mk.injEq .. ▸ h
    injection h1 with h1
    subst h1
    exact ⟨List.get?_mem hget, h2.symm ▸ rfl⟩

/-- With a nonempty pool the sequential arm cannot go out of range. -/
theorem nextSeq_total {pool : List Nat} {s2 : RotState}
    (hne : pool ≠ []) : (nextSeq pool s2).1 ≠ NextRes.outOfRange := by
  have hlt : s2.rot.seqIndex % pool.length < pool.length :=
    Nat.mod_lt _ (List.length_pos.mpr hne)
  rw [nextSeq, List.get?_eq_get hlt]
  intro h
  cases h

/-- Exact formula for the sequential arm on a nonempty pool. -/
theorem nextSeq_eq {pool : List Nat} (s2 : RotState) (hne : pool ≠ []) :
    nextSeq pool s2 =
      (NextRes.ok (pool.getD (s2.rot.seqIndex % pool.length) 0),
       { s2 with rot := { s2.rot with
           seqIndex := s2.rot.seqIndex % pool.length + 1,
           current := some (pool.getD (s2.rot.seqIndex % pool.length) 0),
           counter := 1 } }) := by
  have hlt : s2.rot.seqIndex % pool.length < pool.length :=
    Nat.mod_lt _ (List.length_pos.mpr hne)
  rw [nextSeq, List.get?_eq_get hlt]
  rw [List.getD_eq_getElem _ _ hlt]
  rfl

/-- A successful random pick comes from the new or cached permutation, whose
entries all come from `pool` or from the previously cached permutation. -/
theorem nextRandom_ok {shuffleFn : List Nat → List Nat} {pool : List Nat}
    {s2 : RotState} {p : Nat} {s3 : RotState}
    (hperm : ∀ l, (shuffleFn l).Perm l)
    (h : nextRandom shuffleFn pool s2 = (NextRes.ok p, s3)) :
    ∃ shuf k,
      (∀ q ∈ shuf, q ∈ pool ∨ ∃ l0, s2.rot.shuffled = some l0 ∧ q ∈ l0) ∧
      p ∈ shuf ∧
      s3 = { s2 with rot := { s2.rot with
          shuffled := some shuf, shuffleIdx := k + 1,
          current := some p, counter := 1 } } := by
  rw [nextRandom] at h
  set shuf0 := s2.rot.shuffled.getD [] with hshuf0
  set needReshuffle :=
    ((s2.rot.shuffled.isNone || decide (shuf0.length ≤ s2.rot.shuffleIdx))
      || (s2.rot.skipDead && decide (shuf0.length ≠ pool.length))) with hneed
  by_cases hr : needReshuffle = true
  · rw [if_pos hr] at h
    cases hget : (shuffleFn pool).get? 0 with
    | none =>
      rw [hget] at h
      cases h
    | some q =>
      rw [hget] at h
      obtain ⟨h1, h2⟩ := Prod.mk.injEq .. ▸ h
      injection h1 with h1
      subst h1
      refine ⟨shuffleFn pool, 0, ?_, List.get?_mem hget, h2.symm ▸ rfl⟩
      intro q hq
      exact Or.inl ((hperm pool).mem_iff.mp hq)
  · rw [if_neg hr] at h
    cases hget : shuf0.get? s2.rot.shuffleIdx with
    | none =>
      rw [hget] at h
      cases h
    | some q =>
      rw [hget] at h
      obtain ⟨h1, h2⟩ := Prod.mk.injEq .. ▸ h
      injection h1 with h1
      subst h1
      refine ⟨shuf0, s2.rot.shuffleIdx, ?_, List.get?_mem hget,
        h2.symm ▸ rfl⟩
      intro q hq
      rcases hs0 : s2.rot.shuffled with _ | l0
      · rw [hshuf0, hs0] at hq
        cases hq
      · refine Or.inr ⟨l0, rfl, ?_⟩
        rw [hshuf0, hs0] at hq
        exact hq

/-- With a nonempty pool and a length-preserving shuffle the random arm
cannot go out of range: a reshuffle restarts the cursor at 0 on a list of
the pool's size, and otherwise the cursor is within the cached list. -/
theorem nextRandom_total {shuffleFn : List Nat → List Nat}
    {pool : List Nat} {s2 : RotState}
    (hlen : ∀ l, (shuffleFn l).length = l.length) (hne : pool ≠ []) :
    (nextRandom shuffleFn pool s2).1 ≠ NextRes.outOfRange := by
  rw [nextRandom]
  set shuf0 := s2.rot.shuffled.getD [] with hshuf0
  set needReshuffle :=
    ((s2.rot.shuffled.isNone || decide (shuf0.length ≤ s2.rot.shuffleIdx))
      || (s2.rot.skipDead && decide (shuf0.length ≠ pool.length))) with hneed
  by_cases hr : needReshuffle = true
  · rw [if_pos hr]
    have hlt : 0 < (shuffleFn pool).length := by
      rw [hlen]
      exact List.length_pos.mpr hne
    rw [List.get?_eq_get hlt]
    intro h
    cases h
  · rw [if_neg hr]
    have hcur : s2.rot.shuffleIdx < shuf0.length := by
      by_contra hge
      apply hr
      rw [hneed]
      have : decide (shuf0.length ≤ s2.rot.shuffleIdx) = true := by
        simpa using Nat.le_of_not_lt hge
      simp [this]
    rw [List.get?_eq_get hcur]
    intro h
    cases h

end IpLoop

namespace IpLoop

/-- `nextSeq` leaves the heap, the pool and the configuration untouched. -/
theorem nextSeq_frame (pool : List Nat) (s2 : RotState) :
    (nextSeq pool s2).2.alive = s2.alive ∧
    (nextSeq pool s2).2.rot.proxies = s2.rot.proxies ∧
    (nextSeq pool s2).2.rot.seen = s2.rot.seen ∧
    (nextSeq pool s2).2.rot.strategy = s2.rot.strategy ∧
    (nextSeq pool s2).2.rot.skipDead = s2.rot.skipDead ∧
    (nextSeq pool s2).2.rot.requestsPer = s2.rot.requestsPer := by
  rw [nextSeq]
  cases pool.get? (s2.rot.seqIndex % pool.length) <;>
    exact ⟨rfl, rfl, rfl, rfl, rfl, rfl⟩

/-- `nextRandom` leaves the heap, the pool and the configuration untouched. -/
theorem nextRandom_frame (shuffleFn : List Nat → List Nat) (pool : List Nat)
    (s2 : RotState) :
    (nextRandom shuffleFn pool s2).2.alive = s2.alive ∧
    (nextRandom shuffleFn pool s2).2.rot.proxies = s2.rot.proxies ∧
    (nextRandom shuffleFn pool s2).2.rot.seen = s2.rot.seen ∧
    (nextRandom shuffleFn pool s2).2.rot.strategy = s2.rot.strategy ∧
    (nextRandom shuffleFn pool s2).2.rot.skipDead = s2.rot.skipDead ∧
    (nextRandom shuffleFn pool s2).2.rot.requestsPer = s2.rot.requestsPer := by
  rw [nextRandom]
  set pair := (if ((s2.rot.shuffled.isNone
        || decide ((s2.rot.shuffled.getD []).length ≤ s2.rot.shuffleIdx))
      || (s2.rot.skipDead
        && decide ((s2.rot.shuffled.getD []).length ≠ pool.length))) then
      (shuffleFn pool, 0) else (s2.rot.shuffled.getD [], s2.rot.shuffleIdx))
  cases pair.1.get? pair.2 <;>
    exact ⟨rfl, rfl, rfl, rfl, rfl, rfl⟩

/-- Case analysis for the strategy dispatch. -/
theorem nextFromPool_cases (shuffleFn : List Nat → List Nat) (s : RotState) :
    (∃ e, (getPool s).1 = Except.error e ∧
      nextFromPool shuffleFn s = (NextRes.err e, (getPool s).2)) ∨
    (∃ pool, (getPool s).1 = Except.ok pool ∧
      s.rot.strategy = RotStrategy.sequential ∧
      nextFromPool shuffleFn s = nextSeq pool (getPool s).2) ∨
    (∃ pool, (getPool s).1 = Except.ok pool ∧
      s.rot.strategy = RotStrategy.random ∧
      nextFromPool shuffleFn s = nextRandom shuffleFn pool (getPool s).2) := by
  have hst := (getPool_frame s).2.2.2.1
  cases hgp : (getPool s).1 with
  | error e =>
    refine Or.inl ⟨e, rfl, ?_⟩
    simp only [nextFromPool, hgp]
  | ok pool =>
    cases hstrat : s.rot.strategy with
    | sequential =>
      refine Or.inr (Or.inl ⟨pool, rfl, rfl, ?_⟩)
      simp only [nextFromPool, hgp, hst, hstrat]
    | random =>
      refine Or.inr (Or.inr ⟨pool, rfl, rfl, ?_⟩)
      simp only [nextFromPool, hgp, hst, hstrat]

/-- Case analysis for `Next`: empty-pool error, sticky short-circuit, or
strategy dispatch. -/
theorem next_cases (shuffleFn : List Nat → List Nat) (s : RotState) :
    (s.rot.proxies.isEmpty = true ∧
      Next shuffleFn s = (NextRes.err RotErr.noProxies, s)) ∨
    (s.rot.proxies.isEmpty = false ∧ ∃ c, s.rot.current = some c ∧
      ((s.rot.requestsPer == -1
          || decide ((s.rot.counter : Int) < s.rot.requestsPer))
        && (!s.rot.skipDead || s.alive c)) = true ∧
      Next shuffleFn s = (NextRes.ok c,
        { s with rot := { s.rot with counter := s.rot.counter + 1 } })) ∨
    (s.rot.proxies.isEmpty = false ∧
      Next shuffleFn s = nextFromPool shuffleFn s) := by
  cases hemp : s.rot.proxies.isEmpty
  · cases hc : s.rot.current with
    | none =>
      refine Or.inr (Or.inr ⟨rfl, ?_⟩)
      rw [Next, hemp, hc]
      rfl
    | some c =>
      by_cases hcond : ((s.rot.requestsPer == -1
            || decide ((s.rot.counter : Int) < s.rot.requestsPer))
          && (!s.rot.skipDead || s.alive c)) = true
      · refine Or.inr (Or.inl ⟨rfl, c, rfl, hcond, ?_⟩)
        rw [Next, hemp, hc]
        simp only [Bool.false_eq_true, if_false]
        rw [if_pos hcond]
      · refine Or.inr (Or.inr ⟨rfl, ?_⟩)
        rw [Next, hemp, hc]
        simp only [Bool.false_eq_true, if_false]
        rw [if_neg hcond]
  · refine Or.inl ⟨rfl, ?_⟩
    rw [Next, hemp]
    rfl

end IpLoop

namespace IpLoop

/-- Total shape of the sequential arm: a pick from the pool with the cursor
update, or the out-of-range panic leaving the state as is. -/
theorem nextSeq_shape (pool : List Nat) (s2 : RotState) :
    (∃ p, p ∈ pool ∧ nextSeq pool s2 =
      (NextRes.ok p, { s2 with rot := { s2.rot with
          seqIndex := s2.rot.seqIndex % pool.length + 1,
          current := some p, counter := 1 } })) ∨
    nextSeq pool s2 = (NextRes.outOfRange, s2) := by
  rw [nextSeq]
  cases hget : pool.get? (s2.rot.seqIndex % pool.length) with
  | none => exact Or.inr rfl
  | some q => exact Or.inl ⟨q, List.get?_mem hget, rfl⟩

/-- Total shape of the random arm: a pick from the fresh or cached
permutation (whose entries come from the pool or the previous cache) with
the cursor update, or the out-of-range panic leaving the state as is. -/
theorem nextRandom_shape (shuffleFn : List Nat → List Nat) (pool : List Nat)
    (s2 : RotState) (hperm : ∀ l, (shuffleFn l).Perm l) :
    (∃ p shuf k,
      (∀ q ∈ shuf, q ∈ pool ∨ ∃ l0, s2.rot.shuffled = some l0 ∧ q ∈ l0) ∧
      p ∈ shuf ∧ nextRandom shuffleFn pool s2 =
        (NextRes.ok p, { s2 with rot := { s2.rot with
            shuffled := some shuf, shuffleIdx := k + 1,
            current := some p, counter := 1 } })) ∨
    nextRandom shuffleFn pool s2 = (NextRes.outOfRange, s2) := by
  rw [nextRandom]
  set shuf0 := s2.rot.shuffled.getD [] with hshuf0
  set needReshuffle :=
    ((s2.rot.shuffled.isNone || decide (shuf0.length ≤ s2.rot.shuffleIdx))
      || (s2.rot.skipDead && decide (shuf0.length ≠ pool.length))) with hneed
  by_cases hr : needReshuffle = true
  · rw [if_pos hr]
    cases hget : (shuffleFn pool).get? 0 with
    | none => exact Or.inr rfl
    | some q =>
      refine Or.inl ⟨q, shuffleFn pool, 0, ?_, List.get?_mem hget, rfl⟩
      intro q2 hq2
      exact Or.inl ((hperm pool).mem_iff.mp hq2)
  · rw [if_neg hr]
    cases hget : shuf0.get? s2.rot.shuffleIdx with
    | none => exact Or.inr rfl
    | some q =>
      refine Or.inl ⟨q, shuf0, s2.rot.shuffleIdx, ?_,
        List.get?_mem hget, rfl⟩
      intro q2 hq2
      rcases hs0 : s2.rot.shuffled with _ | l0
      · rw [hshuf0, hs0] at hq2
        cases hq2
      · refine Or.inr ⟨l0, rfl, ?_⟩
        rw [hshuf0, hs0] at hq2
        exact hq2

/-- `Next` never changes the heap, the pool, the dedup set or the
configuration fields. -/
theorem next_frame (shuffleFn : List Nat → List Nat) (s : RotState) :
    (Next shuffleFn s).2.alive = s.alive ∧
    (Next shuffleFn s).2.rot.proxies = s.rot.proxies ∧
    (Next shuffleFn s).2.rot.seen = s.rot.seen ∧
    (Next shuffleFn s).2.rot.strategy = s.rot.strategy ∧
    (Next shuffleFn s).2.rot.skipDead = s.rot.skipDead ∧
    (Next shuffleFn s).2.rot.requestsPer = s.rot.requestsPer := by
  obtain ⟨gal, gpx, gsn, gst, gsd, grp, gcu, gco, gsq, gsh, gsi⟩ :=
    getPool_frame s
  rcases next_cases shuffleFn s with ⟨_, heq⟩ | ⟨_, c, _, _, heq⟩ | ⟨_, heq⟩
  · rw [heq]
    exact ⟨rfl, rfl, rfl, rfl, rfl, rfl⟩
  · rw [heq]
    exact ⟨rfl, rfl, rfl, rfl, rfl, rfl⟩
  · rw [heq]
    rcases nextFromPool_cases shuffleFn s with
      ⟨e, _, heq2⟩ | ⟨pool, _, _, heq2⟩ | ⟨pool, _, _, heq2⟩
    · rw [heq2]
      exact ⟨gal, gpx, gsn, gst, gsd, grp⟩
    · rw [heq2]
      obtain ⟨f1, f2, f3, f4, f5, f6⟩ := nextSeq_frame pool (getPool s).2
      exact ⟨f1.trans gal, f2.trans gpx, f3.trans gsn, f4.trans gst,
        f5.trans gsd, f6.trans grp⟩
    · rw [heq2]
      obtain ⟨f1, f2, f3, f4, f5, f6⟩ :=
        nextRandom_frame shuffleFn pool (getPool s).2
      exact ⟨f1.trans gal, f2.trans gpx, f3.trans gsn, f4.trans gst,
        f5.trans gsd, f6.trans grp⟩

end IpLoop

namespace IpLoop

/-- `Next` preserves the reachability invariant, and every endpoint it hands
out is in the pool, alive under `skipDead`. -/
theorem next_spec (fp : Nat → String) (shuffleFn : List Nat → List Nat)
    (s : RotState) (hperm : ∀ l, (shuffleFn l).Perm l)
    (hinv : RotInv fp s) :
    RotInv fp (Next shuffleFn s).2 ∧
    (∀ p, (Next shuffleFn s).1 = NextRes.ok p →
      p ∈ s.rot.proxies ∧ (s.rot.skipDead = true → s.alive p = true)) := by
  obtain ⟨hcur, hshuf, halive, hnodup, hseen, hcnt⟩ := hinv
  obtain ⟨gal, gpx, gsn, gst, gsd, grp, gcu, gco, gsq, gsh, gsi⟩ :=
    getPool_frame s
  rcases next_cases shuffleFn s with
    ⟨_, heq⟩ | ⟨_, c, hc, hcond, heq⟩ | ⟨_, heq⟩
  · rw [heq]
    exact ⟨⟨hcur, hshuf, halive, hnodup, hseen, hcnt⟩,
      fun p hp => by cases hp⟩
  · rw [heq]
    constructor
    · refine ⟨hcur, hshuf, halive, hnodup, hseen, ?_⟩
      intro _
      exact Nat.le_add_left 1 s.rot.counter
    · intro p hp
      injection hp with hp
      subst hp
      refine ⟨hcur c hc, ?_⟩
      intro hsd
      have h2 : (!s.rot.skipDead || s.alive c) = true := by
        have h3 := hcond
        simp only [Bool.and_eq_true] at h3
        exact h3.2
      rw [hsd] at h2
      simpa using h2
  · rw [heq]
    rcases nextFromPool_cases shuffleFn s with
      ⟨e, hgp, heq2⟩ | ⟨pool, hgp, hstrat, heq2⟩ | ⟨pool, hgp, hstrat, heq2⟩
    · rw [heq2]
      refine ⟨?_, fun p hp => by cases hp⟩
      rw [RotInv, gal, gpx, gsn, gsd, gcu, gco, gsh]
      exact ⟨hcur, hshuf, halive, hnodup, hseen, hcnt⟩
    · obtain ⟨hsub, hskipt, hskipf⟩ := getPool_ok_mem hgp
      have halpool : s.rot.skipDead = true → ∀ q ∈ pool, s.alive q = true :=
        fun ht => (hskipt ht).1
      rw [heq2]
      rcases nextSeq_shape pool (getPool s).2 with ⟨p, hpmem, hres⟩ | hres
      · rw [hres]
        constructor
        · refine ⟨?_, ?_, ?_, ?_, ?_, ?_⟩ <;>
            simp only [gal, gpx, gsn, gsd, gsh]
          · intro c2 hc2
            injection hc2 with hc2
            subst hc2
            exact hsub p hpmem
          · exact hshuf
          · exact halive
          · exact hnodup
          · exact hseen
          · intro _
            exact Nat.le_refl 1
        · intro q hq
          injection hq with hq
          subst hq
          exact ⟨hsub p hpmem, fun ht => halpool ht p hpmem⟩
      · rw [hres]
        refine ⟨?_, fun p hp => by cases hp⟩
        rw [RotInv, gal, gpx, gsn, gsd, gcu, gco, gsh]
        exact ⟨hcur, hshuf, halive, hnodup, hseen, hcnt⟩
    · obtain ⟨hsub, hskipt, hskipf⟩ := getPool_ok_mem hgp
      have halpool : s.rot.skipDead = true → ∀ q ∈ pool, s.alive q = true :=
        fun ht => (hskipt ht).1
      rw [heq2]
      rcases nextRandom_shape shuffleFn pool (getPool s).2 hperm with
        ⟨p, shuf, k, hshufmem, hpmem, hres⟩ | hres
      · rw [gsh] at hshufmem
        have hshufpx : ∀ q ∈ shuf, q ∈ s.rot.proxies := by
          intro q hq
          rcases hshufmem q hq with hq2 | ⟨l0, hl0, hq2⟩
          · exact hsub q hq2
          · exact hshuf l0 hl0 q hq2
        have hshufalive : s.rot.skipDead = true →
            ∀ q ∈ shuf, s.alive q = true := by
          intro ht q hq
          rcases hshufmem q hq with hq2 | ⟨l0, hl0, hq2⟩
          · exact halpool ht q hq2
          · exact halive ht l0 hl0 q hq2
        rw [hres]
        constructor
        · refine ⟨?_, ?_, ?_, ?_, ?_, ?_⟩ <;>
            simp only [gal, gpx, gsn, gsd]
          · intro c2 hc2
            injection hc2 with hc2
            subst hc2
            exact hshufpx p hpmem
          · intro l hl
            injection hl with hl
            subst hl
            exact hshufpx
          · intro ht l hl
            injection hl with hl
            subst hl
            exact hshufalive ht
          · exact hnodup
          · exact hseen
          · intro _
            exact Nat.le_refl 1
        · intro q hq
          injection hq with hq
          subst hq
          exact ⟨hshufpx p hpmem, fun ht => hshufalive ht p hpmem⟩
      · rw [hres]
        refine ⟨?_, fun p hp => by cases hp⟩
        rw [RotInv, gal, gpx, gsn, gsd, gcu, gco, gsh]
        exact ⟨hcur, hshuf, halive, hnodup, hseen, hcnt⟩

end IpLoop

namespace IpLoop

/-- `Next` never performs an out-of-range access, for any state whatsoever,
as long as the shuffle is length-preserving. -/
theorem next_total (shuffleFn : List Nat → List Nat) (s : RotState)
    (hlen : ∀ l, (shuffleFn l).length = l.length) :
    (Next shuffleFn s).1 ≠ NextRes.outOfRange := by
  rcases next_cases shuffleFn s with
    ⟨_, heq⟩ | ⟨_, c, _, _, heq⟩ | ⟨hemp, heq⟩
  · rw [heq]
    intro h
    cases h
  · rw [heq]
    intro h
    cases h
  · rw [heq]
    have hne : s.rot.proxies ≠ [] := by
      intro h
      rw [h] at hemp
      cases hemp
    rcases nextFromPool_cases shuffleFn s with
      ⟨e, hgp, heq2⟩ | ⟨pool, hgp, hstrat, heq2⟩ | ⟨pool, hgp, hstrat, heq2⟩
    · rw [heq2]
      intro h
      cases h
    · obtain ⟨hsub, hskipt, hskipf⟩ := getPool_ok_mem hgp
      have hpne : pool ≠ [] := by
        cases hsd : s.rot.skipDead
        · rw [hskipf hsd]
          exact hne
        · exact (hskipt hsd).2
      rw [heq2]
      exact nextSeq_total hpne
    · obtain ⟨hsub, hskipt, hskipf⟩ := getPool_ok_mem hgp
      have hpne : pool ≠ [] := by
        cases hsd : s.rot.skipDead
        · rw [hskipf hsd]
          exact hne
        · exact (hskipt hsd).2
      rw [heq2]
      exact nextRandom_total hlen hpne

/-- The reachability invariant holds in every state a fresh rotator can
reach through `add`, `next` and `mark_dead`. -/
theorem runOps_inv (fp : Nat → String) (shuffleFn : List Nat → List Nat)
    (strategy : RotStrategy) (skipDead : Bool) (requestsPer : Int)
    (ops : List RotOp) (hperm : ∀ l, (shuffleFn l).Perm l) :
    RotInv fp (runOps fp shuffleFn strategy skipDead requestsPer ops) := by
  rw [runOps]
  have h : ∀ (s : RotState), RotInv fp s →
      RotInv fp (ops.foldl (applyOp fp shuffleFn) s) := by
    induction ops with
    | nil =>
      intro s hs
      exact hs
    | cons op ops ih =>
      intro s hs
      rw [List.foldl_cons]
      apply ih
      cases op with
      | add p => exact addProxy_inv p hs
      | next => exact (next_spec fp shuffleFn s hperm hs).1
      | markDead p => exact markDead_inv p hs
  exact h _ (rotInv_init fp strategy skipDead requestsPer)

end IpLoop

namespace IpLoop

/-- C4: `add` deduplicates by fingerprint: adding an endpoint whose
fingerprint is already in the pool leaves the whole rotator unchanged;
otherwise the endpoint is appended, the cached shuffle is invalidated and the
pool cache is cleared.  Consequently fingerprints are unique within any
reachable rotator. -/
theorem c4_add_fingerprint_dedup (fp : Nat → String)
    (shuffleFn : List Nat → List Nat) (strategy : RotStrategy)
    (skipDead : Bool) (requestsPer : Int) (ops : List RotOp) (s : RotState)
    (hperm : ∀ l, (shuffleFn l).Perm l)
    (hs : s = runOps fp shuffleFn strategy skipDead requestsPer ops)
    (p : Nat) :
    (s.rot.proxies.map fp).Nodup ∧
    (fp p ∈ s.rot.proxies.map fp → AddProxy fp p s = s) ∧
    (fp p ∉ s.rot.proxies.map fp →
      (AddProxy fp p s).rot.proxies = s.rot.proxies ++ [p] ∧
      (AddProxy fp p s).rot.shuffled = none ∧
      (AddProxy fp p s).rot.poolCache = []) := by
  have hinv : RotInv fp s := by
    rw [hs]
    exact runOps_inv fp shuffleFn strategy skipDead requestsPer ops hperm
  obtain ⟨_, _, _, hnodup, hseen, _⟩ := hinv
  refine ⟨hnodup, ?_, ?_⟩
  · intro hmem
    rw [AddProxy, if_pos ((hseen (fp p)).mpr hmem)]
  · intro hmem
    have hnot : fp p ∉ s.rot.seen := fun h => hmem ((hseen (fp p)).mp h)
    rw [AddProxy, if_neg hnot]
    exact ⟨rfl, rfl, rfl⟩

/-- Witness for C4: after adding endpoints 0 and 1 (distinct fingerprints),
fingerprints are unique, re-adding a duplicate of 0 is a no-op, and adding
the fresh endpoint 2 appends it and invalidates the caches. -/
theorem c4_add_fingerprint_dedup_witness :
    (((runOps fpId id RotStrategy.sequential false 1
        [RotOp.add 0, RotOp.add 1]).rot.proxies.map fpId).Nodup ∧
      (fpId 0 ∈ (runOps fpId id RotStrategy.sequential false 1
          [RotOp.add 0, RotOp.add 1]).rot.proxies.map fpId →
        AddProxy fpId 0 (runOps fpId id RotStrategy.sequential false 1
          [RotOp.add 0, RotOp.add 1])
          = runOps fpId id RotStrategy.sequential false 1
              [RotOp.add 0, RotOp.add 1]) ∧
      (fpId 0 ∉ (runOps fpId id RotStrategy.sequential false 1
          [RotOp.add 0, RotOp.add 1]).rot.proxies.map fpId →
        (AddProxy fpId 0 (runOps fpId id RotStrategy.sequential false 1
            [RotOp.add 0, RotOp.add 1])).rot.proxies
          = (runOps fpId id RotStrategy.sequential false 1
              [RotOp.add 0, RotOp.add 1]).rot.proxies ++ [0] ∧
        (AddProxy fpId 0 (runOps fpId id RotStrategy.sequential false 1
            [RotOp.add 0, RotOp.add 1])).rot.shuffled = none ∧
        (AddProxy fpId 0 (runOps fpId id RotStrategy.sequential false 1
            [RotOp.add 0, RotOp.add 1])).rot.poolCache = [])) ∧
    fpId 0 ∈ (runOps fpId id RotStrategy.sequential false 1
        [RotOp.add 0, RotOp.add 1]).rot.proxies.map fpId :=
  ⟨c4_add_fingerprint_dedup fpId id RotStrategy.sequential false 1
      [RotOp.add 0, RotOp.add 1] _ (fun l => List.Perm.refl l) rfl 0,
    by decide⟩

/-- C5: for every sequence of `add`, `next`, `mark_dead` operations, every
endpoint returned by `next()` is a member of the pool, and under
`skip_dead=true` it is alive at the time of return. -/
theorem c5_next_member_and_alive (fp : Nat → String)
    (shuffleFn : List Nat → List Nat) (strategy : RotStrategy)
    (skipDead : Bool) (requestsPer : Int) (ops : List RotOp) (s : RotState)
    (p : Nat) (hperm : ∀ l, (shuffleFn l).Perm l)
    (hs : s = runOps fp shuffleFn strategy skipDead requestsPer ops)
    (hnext : (Next shuffleFn s).1 = NextRes.ok p) :
    p ∈ s.rot.proxies ∧ (s.rot.skipDead = true → s.alive p = true) := by
  have hinv : RotInv fp s := by
    rw [hs]
    exact runOps_inv fp shuffleFn strategy skipDead requestsPer ops hperm
  exact (next_spec fp shuffleFn s hperm hinv).2 p hnext

/-- Witness for C5: with pool {1, 2} under `skip_dead=true` and 1 freshly
marked dead, `next()` returns 2, which is in the pool and alive. -/
theorem c5_next_member_and_alive_witness :
    2 ∈ (runOps fpId id RotStrategy.sequential true 1
        [RotOp.add 1, RotOp.add 2, RotOp.next,
         RotOp.markDead 1]).rot.proxies ∧
    ((runOps fpId id RotStrategy.sequential true 1
        [RotOp.add 1, RotOp.add 2, RotOp.next,
         RotOp.markDead 1]).rot.skipDead = true →
      (runOps fpId id RotStrategy.sequential true 1
        [RotOp.add 1, RotOp.add 2, RotOp.next,
         RotOp.markDead 1]).alive 2 = true) :=
  c5_next_member_and_alive fpId id RotStrategy.sequential true 1
    [RotOp.add 1, RotOp.add 2, RotOp.next, RotOp.markDead 1] _ 2
    (fun l => List.Perm.refl l) rfl (by decide)

/-- C8: `next()` is total: for every rotator state (in particular any state
reached by `add`, `mark_dead`, `next` sequences) and any length-preserving
shuffle, it never performs an out-of-range index access (the sequential index
is reduced modulo the pool length, and the random arm reshuffles whenever the
cursor reaches the end of the cache or the pool size changed). -/
theorem c8_next_never_indexes_out_of_range
    (shuffleFn : List Nat → List Nat) (s : RotState)
    (hlen : ∀ l, (shuffleFn l).length = l.length) :
    (Next shuffleFn s).1 ≠ NextRes.outOfRange :=
  next_total shuffleFn s hlen

/-- Witness for C8: the state with pool {1, 2} where 1 was handed out and
marked dead under `skip_dead=true` (the shrinking-pool case). -/
theorem c8_next_never_indexes_out_of_range_witness :
    (Next id (runOps fpId id RotStrategy.random true 1
        [RotOp.add 1, RotOp.add 2, RotOp.next, RotOp.markDead 1])).1
      ≠ NextRes.outOfRange :=
  c8_next_never_indexes_out_of_range id
    (runOps fpId id RotStrategy.random true 1
      [RotOp.add 1, RotOp.add 2, RotOp.next, RotOp.markDead 1])
    (fun _ => rfl)

end IpLoop

namespace IpLoop

/-- Iterate `Next` n times, collecting the results. -/
def runNexts (shuffleFn : List Nat → List Nat) :
    RotState → Nat → List NextRes × RotState
  | s, 0 => ([], s)
  | s, n + 1 =>
    let r := Next shuffleFn s
    let rest := runNexts shuffleFn r.2 n
    (r.1 :: rest.1, rest.2)

/-- One `Next` step of a sequential, keep-dead, rotate-every-request rotator:
the element at `seqIndex % N` is returned and only the cursor, `current` and
`counter` change. -/
theorem next_seq_step (shuffleFn : List Nat → List Nat) (s : RotState)
    (hstrat : s.rot.strategy = RotStrategy.sequential)
    (hsd : s.rot.skipDead = false)
    (hrp : s.rot.requestsPer = 1)
    (hcnt : s.rot.current.isSome = true → 1 ≤ s.rot.counter)
    (hne : s.rot.proxies ≠ []) :
    Next shuffleFn s =
      (NextRes.ok (s.rot.proxies.getD
          (s.rot.seqIndex % s.rot.proxies.length) 0),
       { s with rot := { s.rot with
           seqIndex := s.rot.seqIndex % s.rot.proxies.length + 1,
           current := some (s.rot.proxies.getD
             (s.rot.seqIndex % s.rot.proxies.length) 0),
           counter := 1 } }) := by
  have hsticky : Next shuffleFn s = nextFromPool shuffleFn s := by
    rcases next_cases shuffleFn s with
      ⟨hemp, _⟩ | ⟨_, c, hc, hcond, _⟩ | ⟨_, heq⟩
    · rw [List.isEmpty_iff] at hemp
      exact absurd hemp hne
    · exfalso
      have h1 : s.rot.current.isSome = true := by
        rw [hc]
        rfl
      have h2 := hcnt h1
      rw [hrp] at hcond
      simp only [Bool.and_eq_true, Bool.or_eq_true, decide_eq_true_iff]
        at hcond
      rcases hcond.1 with h | h
      · exact absurd h (by decide)
      · omega
    · exact heq
  have hgp : getPool s = (Except.ok s.rot.proxies, s) := by
    rw [getPool, if_pos hsd]
  have hgp1 : (getPool s).1 = Except.ok s.rot.proxies := by
    rw [hgp]
  have hgp2 : (getPool s).2 = s := by
    rw [hgp]
  rw [hsticky]
  rcases nextFromPool_cases shuffleFn s with
    ⟨e, hgpe, _⟩ | ⟨pool, hgpo, _, heq2⟩ | ⟨pool, hgpo, hstr, _⟩
  · rw [hgp1] at hgpe
    cases hgpe
  · rw [hgp1] at hgpo
    have hpe : pool = s.rot.proxies := (Except.ok.inj hgpo).symm
    subst hpe
    rw [heq2, hgp2]
    exact nextSeq_eq s hne
  · rw [hstrat] at hstr
    cases hstr

/-- The output stream of n sequential keep-dead next() calls reads the pool
in insertion order with wraparound, starting at the current cursor. -/
theorem seq_stream (shuffleFn : List Nat → List Nat) (n : Nat) :
    ∀ (s : RotState),
      s.rot.strategy = RotStrategy.sequential →
      s.rot.skipDead = false →
      s.rot.requestsPer = 1 →
      (s.rot.current.isSome = true → 1 ≤ s.rot.counter) →
      s.rot.proxies ≠ [] →
      (runNexts shuffleFn s n).1 =
        (List.range n).map (fun i =>
          NextRes.ok (s.rot.proxies.getD
            ((s.rot.seqIndex + i) % s.rot.proxies.length) 0)) := by
  induction n with
  | zero =>
    intro s _ _ _ _ _
    rfl
  | succ n ih =>
    intro s hstrat hsd hrp hcnt hne
    have hstep := next_seq_step shuffleFn s hstrat hsd hrp hcnt hne
    rw [runNexts]
    simp only [hstep]
    set s3 : RotState := { s with rot := { s.rot with
        seqIndex := s.rot.seqIndex % s.rot.proxies.length + 1,
        current := some (s.rot.proxies.getD
          (s.rot.seqIndex % s.rot.proxies.length) 0),
        counter := 1 } } with hs3
    have htail := ih s3 hstrat hsd hrp (fun _ => Nat.le_refl 1) hne
    rw [htail]
    rw [List.range_succ_eq_map]
    rw [List.map_cons, List.map_map]
    congr 1
    rw [List.map_inj_left]
    intro i _
    simp only [Function.comp, hs3]
    have harith : (s.rot.seqIndex % s.rot.proxies.length + 1 + i)
          % s.rot.proxies.length
        = (s.rot.seqIndex + i.succ) % s.rot.proxies.length := by
      rw [Nat.add_assoc, Nat.mod_add_mod, Nat.succ_eq_add_one,
        Nat.add_comm 1 i]
    rw [harith]

end IpLoop

namespace IpLoop

/-- One full window of N wraparound reads starting at cursor j is a rotation
of the pool. -/
theorem seq_block_rotate (l : List Nat) (j : Nat) (hne : l ≠ []) :
    (List.range l.length).map (fun i => l.getD ((j + i) % l.length) 0)
      = l.rotate j := by
  have hpos : 0 < l.length := List.length_pos.mpr hne
  apply List.ext_getElem
  · simp [List.length_rotate]
  · intro i h1 h2
    rw [List.getElem_map, List.getElem_range, List.getElem_rotate]
    rw [List.getD_eq_getElem l 0 (Nat.mod_lt _ hpos)]
    congr 1
    rw [Nat.add_comm]

/-- Over k full windows every pool member is read exactly k times. -/
theorem seq_outs_count (l : List Nat) (k : Nat) (hnodup : l.Nodup)
    (p : Nat) (hp : p ∈ l) :
    ∀ j, ((List.range (k * l.length)).map
        (fun i => l.getD ((j + i) % l.length) 0)).count p = k := by
  induction k with
  | zero => simp
  | succ k ih =>
    intro j
    have hne : l ≠ [] := by
      intro h
      rw [h] at hp
      cases hp
    have hlen : (k + 1) * l.length = l.length + k * l.length := by ring
    rw [hlen, List.range_add, List.map_append, List.count_append]
    rw [seq_block_rotate l j hne]
    have h1 : (l.rotate j).count p = 1 := by
      rw [(List.rotate_perm l j).count_eq]
      exact List.count_eq_one_of_mem hnodup hp
    rw [h1, List.map_map]
    have hcg : ∀ i ∈ List.range (k * l.length),
        ((fun i => l.getD ((j + i) % l.length) 0)
          ∘ (fun i => l.length + i)) i
        = (fun i => l.getD ((j + l.length + i) % l.length) 0) i := by
      intro i _
      simp only [Function.comp]
      congr 1
      rw [← Nat.add_assoc]
    rw [List.map_congr_left hcg, ih (j + l.length)]
    omega

/-- C6 (amended): with Sequential strategy, `skip_dead=false` and
`requests_per=1` (rotate on every request, the default), kN `next()` calls
read the pool in insertion order with wraparound from the current cursor and
return each endpoint exactly k times; in particular on the fresh pool
[P1, P2, P3] four calls yield P1, P2, P3, P1. -/
theorem c6_sequential_round_robin :
    (∀ (shuffleFn : List Nat → List Nat) (s : RotState) (k : Nat),
      s.rot.strategy = RotStrategy.sequential →
      s.rot.skipDead = false →
      s.rot.requestsPer = 1 →
      (s.rot.current.isSome = true → 1 ≤ s.rot.counter) →
      (runNexts shuffleFn s (k * s.rot.proxies.length)).1 =
        (List.range (k * s.rot.proxies.length)).map (fun i =>
          NextRes.ok (s.rot.proxies.getD
            ((s.rot.seqIndex + i) % s.rot.proxies.length) 0)) ∧
      (s.rot.proxies.Nodup → ∀ p ∈ s.rot.proxies,
        (runNexts shuffleFn s (k * s.rot.proxies.length)).1.count
          (NextRes.ok p) = k)) ∧
    (runNexts id (runOps fpId id RotStrategy.sequential false 1
        [RotOp.add 1, RotOp.add 2, RotOp.add 3]) 4).1
      = [NextRes.ok 1, NextRes.ok 2, NextRes.ok 3, NextRes.ok 1] := by
  refine ⟨?_, by decide⟩
  intro shuffleFn s k hstrat hsd hrp hcnt
  by_cases hne : s.rot.proxies = []
  · rw [hne]
    simp only [List.length_nil, Nat.mul_zero]
    exact ⟨rfl, fun _ p hp => by cases hp⟩
  · have hstream := seq_stream shuffleFn (k * s.rot.proxies.length) s
      hstrat hsd hrp hcnt hne
    refine ⟨hstream, ?_⟩
    intro hnodup p hp
    rw [hstream]
    have hinj : Function.Injective NextRes.ok := fun a b h => NextRes.ok.inj h
    have hmm : (List.range (k * s.rot.proxies.length)).map (fun i =>
          NextRes.ok (s.rot.proxies.getD
            ((s.rot.seqIndex + i) % s.rot.proxies.length) 0))
        = ((List.range (k * s.rot.proxies.length)).map (fun i =>
            s.rot.proxies.getD
              ((s.rot.seqIndex + i) % s.rot.proxies.length) 0)).map
            NextRes.ok := by
      rw [List.map_map]
      rfl
    rw [hmm, List.count_map_of_injective _ NextRes.ok hinj]
    exact seq_outs_count s.rot.proxies k hnodup p hp s.rot.seqIndex

/-- Counterexample to C6 as stated: with `requests_per=2` (a legal Rotator
configuration under the sticky revision) a pool [P1, P2] yields P1, P1 on the
first 1·N = 2 calls, so endpoint P2 is not returned exactly once. -/
theorem c6_counterexample :
    (runNexts id (runOps fpId id RotStrategy.sequential false 2
        [RotOp.add 1, RotOp.add 2]) 2).1
      = [NextRes.ok 1, NextRes.ok 1] ∧
    ¬((runNexts id (runOps fpId id RotStrategy.sequential false 2
        [RotOp.add 1, RotOp.add 2]) 2).1.count (NextRes.ok 2) = 1) := by
  decide

/-- Witness for C6 (amended): pool {1, 2}, k = 2: four calls return each of
the two endpoints exactly twice. -/
theorem c6_sequential_round_robin_witness :
    (runNexts id (runOps fpId id RotStrategy.sequential false 1
        [RotOp.add 1, RotOp.add 2])
      (2 * (runOps fpId id RotStrategy.sequential false 1
        [RotOp.add 1, RotOp.add 2]).rot.proxies.length)).1.count
      (NextRes.ok 1) = 2 :=
  (c6_sequential_round_robin.1 id
      (runOps fpId id RotStrategy.sequential false 1
        [RotOp.add 1, RotOp.add 2]) 2
      (by decide) (by decide) (by decide) (by decide)).2
    (by decide) 1 (by decide)

end IpLoop

namespace IpLoop

/-- Error value threaded through server.go `connectToTarget`: either the
error returned by `rotator.Next()` or a dial error attributed to the proxy
whose dial failed (`lastErr`). -/
inductive ConnErr where
  | rotErr (e : RotErr)
  | dialErr (p : Nat)
deriving DecidableEq

/-- The `(conn, usedProxy, err)` triple returned by `connectToTarget`,
with the opened connection elided: `ret up e` carries the returned
`usedProxy` (`none` models a nil pointer) and the error (`none` models a nil
error).  `crashed` marks a rotator panic propagating. -/
inductive CTRes where
  | ret (usedProxy : Option Nat) (err : Option ConnErr)
  | crashed
deriving DecidableEq

/-- Mutable state of one `connectToTarget` run: the rotator, the `tried`
set, `lastErr`, plus two ghost observations: the ordered list of proxies
whose dial was attempted and failed, and the number of executed loop
iterations. -/
structure CTState where
  rs : RotState
  tried : List Nat
  lastErr : Option ConnErr
  dialedFail : List Nat
  iters : Nat

/-- The retry loop of server.go `connectToTarget` (`for i := 0; i <
maxRetries; i++`), with the remaining iteration budget as fuel.  `dial p`
abstracts `s.dialer.Dial(p, target)`: true = the dial succeeds.  Within a
single request each proxy is dialed at most once (the `tried` check), so a
per-proxy outcome is fully general. -/
def ctLoop (shuffleFn : List Nat → List Nat) (dial : Nat → Bool) :
    Nat → Nat → CTState → CTRes × CTState
  | 0, _, st => (CTRes.ret none st.lastErr, st)
  | Nat.succ fuel, p, st =>
    let st1 : CTState := { st with iters := st.iters + 1 }
    if p ∈ st1.tried then
      match Next shuffleFn st1.rs with
      | (NextRes.ok q, rs2) =>
        ctLoop shuffleFn dial fuel q { st1 with rs := rs2 }
      | (NextRes.err _, rs2) =>
        (CTRes.ret none st1.lastErr, { st1 with rs := rs2 })
      | (NextRes.outOfRange, rs2) => (CTRes.crashed, { st1 with rs := rs2 })
    else
      let st2 : CTState := { st1 with tried := p :: st1.tried }
      if dial p then (CTRes.ret (some p) none, st2)
      else
        let st3 : CTState := { st2 with
          lastErr := some (ConnErr.dialErr p),
          dialedFail := st2.dialedFail ++ [p],
          rs := MarkDead p st2.rs }
        match Next shuffleFn st3.rs with
        | (NextRes.ok q, rs2) =>
          ctLoop shuffleFn dial fuel q { st3 with rs := rs2 }
        | (NextRes.err _, rs2) =>
          (CTRes.ret none st3.lastErr, { st3 with rs := rs2 })
        | (NextRes.outOfRange, rs2) =>
          (CTRes.crashed, { st3 with rs := rs2 })

/-- The retry budget of server.go `connectToTarget`: `rotator.Count()`
clamped to at most 10, then at least 3. -/
def maxRetriesFor (count : Nat) : Nat :=
  let m1 := if count > 10 then 10 else count
  if m1 < 3 then 3 else m1

/-- server.go `connectToTarget`: one initial `rotator.Next()` (returning its
error directly on failure), then the bounded retry loop. -/
def connectToTarget (shuffleFn : List Nat → List Nat) (dial : Nat → Bool)
    (rs : RotState) : CTRes × CTState :=
  match Next shuffleFn rs with
  | (NextRes.err e, rs2) =>
    (CTRes.ret none (some (ConnErr.rotErr e)),
     { rs := rs2, tried := [], lastErr := none, dialedFail := [],
       iters := 0 })
  | (NextRes.outOfRange, rs2) =>
    (CTRes.crashed,
     { rs := rs2, tried := [], lastErr := none, dialedFail := [],
       iters := 0 })
  | (NextRes.ok p, rs2) =>
    ctLoop shuffleFn dial (maxRetriesFor rs2.rot.proxies.length) p
      { rs := rs2, tried := [], lastErr := none, dialedFail := [],
        iters := 0 }

/-- Endpoint-statistics and reply calls observable in server.go
`handleNormal` (the process-global Stats counters are elided). -/
inductive SrvEvent where
  | recordFailure (p : Nat)
  | recordRequest (p : Nat) (latency : Nat)
  | reply (code : Nat)
deriving DecidableEq

/-- SOCKS5 reply codes used by handleNormal. -/
def replySuccess : Nat := 0

def replyHostUnreach : Nat := 4

/-- server.go `handleNormal`: on error record a failure on `usedProxy` when
it is non-nil and reply host-unreachable; on success record the request
latency on `usedProxy` when it is non-nil and reply success (the relay that
follows is elided).  `latency` abstracts `time.Since(start)`. -/
def handleNormal (shuffleFn : List Nat → List Nat) (dial : Nat → Bool)
    (latency : Nat) (rs : RotState) : List SrvEvent × CTState :=
  match connectToTarget shuffleFn dial rs with
  | (CTRes.ret up (some _e), st) =>
    ((match up with
      | some p => [SrvEvent.recordFailure p]
      | none => []) ++ [SrvEvent.reply replyHostUnreach], st)
  | (CTRes.ret up none, st) =>
    ((match up with
      | some p => [SrvEvent.recordRequest p latency]
      | none => []) ++ [SrvEvent.reply replySuccess], st)
  | (CTRes.crashed, st) => ([], st)

end IpLoop

namespace IpLoop

/-- `MarkDead` updates exactly one alive flag, to false. -/
theorem markDead_alive (p : Nat) (s : RotState) :
    (MarkDead p s).alive = fun q => if q = p then false else s.alive q := by
  rw [MarkDead]
  split <;> rfl

end IpLoop

namespace IpLoop

/-- Unfolding equation: loop iteration on an already-tried endpoint. -/
theorem ctLoop_succ_tried (shuffleFn : List Nat → List Nat)
    (dial : Nat → Bool) (fuel p : Nat) (st : CTState)
    (h : p ∈ st.tried) :
    ctLoop shuffleFn dial (fuel + 1) p st =
      match Next shuffleFn st.rs with
      | (NextRes.ok q, rs2) => ctLoop shuffleFn dial fuel q
          { st with iters := st.iters + 1, rs := rs2 }
      | (NextRes.err _, rs2) =>
        (CTRes.ret none st.lastErr,
         { st with iters := st.iters + 1, rs := rs2 })
      | (NextRes.outOfRange, rs2) =>
        (CTRes.crashed, { st with iters := st.iters + 1, rs := rs2 }) := by
  rw [ctLoop]
  dsimp only
  rw [if_pos h]

/-- Unfolding equation: loop iteration dialing a fresh endpoint that
succeeds. -/
theorem ctLoop_succ_dial_ok (shuffleFn : List Nat → List Nat)
    (dial : Nat → Bool) (fuel p : Nat) (st : CTState)
    (h : p ∉ st.tried) (hd : dial p = true) :
    ctLoop shuffleFn dial (fuel + 1) p st =
      (CTRes.ret (some p) none,
       { st with iters := st.iters + 1, tried := p :: st.tried }) := by
  rw [ctLoop]
  dsimp only
  rw [if_neg h, if_pos hd]

/-- Unfolding equation: loop iteration dialing a fresh endpoint that fails:
record the dial error, mark the endpoint dead, fetch a replacement. -/
theorem ctLoop_succ_dial_fail (shuffleFn : List Nat → List Nat)
    (dial : Nat → Bool) (fuel p : Nat) (st : CTState)
    (h : p ∉ st.tried) (hd : dial p = false) :
    ctLoop shuffleFn dial (fuel + 1) p st =
      match Next shuffleFn (MarkDead p st.rs) with
      | (NextRes.ok q, rs2) => ctLoop shuffleFn dial fuel q
          { st with
            iters := st.iters + 1
            tried := p :: st.tried
            lastErr := some (ConnErr.dialErr p)
            dialedFail := st.dialedFail ++ [p]
            rs := rs2 }
      | (NextRes.err _, rs2) =>
        (CTRes.ret none (some (ConnErr.dialErr p)),
         { st with
           iters := st.iters + 1
           tried := p :: st.tried
           lastErr := some (ConnErr.dialErr p)
           dialedFail := st.dialedFail ++ [p]
           rs := rs2 })
      | (NextRes.outOfRange, rs2) =>
        (CTRes.crashed,
         { st with
           iters := st.iters + 1
           tried := p :: st.tried
           lastErr := some (ConnErr.dialErr p)
           dialedFail := st.dialedFail ++ [p]
           rs := rs2 }) := by
  rw [ctLoop]
  dsimp only
  rw [if_neg h, hd]
  exact if_neg (by decide)

end IpLoop

namespace IpLoop

/-- Induction workhorse for the retry loop: failed dials stay marked dead,
each endpoint is dialed at most once, the iteration count is bounded by the
fuel, the failure list only grows, a returned failure carries nil `usedProxy`
and the last dial error, and a failure with no recorded failed dial can only
come from exhausted fuel or an already-tried endpoint. -/
theorem ctLoop_spec (shuffleFn : List Nat → List Nat) (dial : Nat → Bool) :
    ∀ (fuel p : Nat) (st : CTState),
      (∀ q ∈ st.dialedFail, st.rs.alive q = false) →
      st.lastErr = st.dialedFail.getLast?.map ConnErr.dialErr →
      st.dialedFail.Nodup →
      (∀ q ∈ st.dialedFail, q ∈ st.tried) →
      (∀ q ∈ (ctLoop shuffleFn dial fuel p st).2.dialedFail,
        (ctLoop shuffleFn dial fuel p st).2.rs.alive q = false) ∧
      (ctLoop shuffleFn dial fuel p st).2.dialedFail.Nodup ∧
      (ctLoop shuffleFn dial fuel p st).2.iters ≤ st.iters + fuel ∧
      (∃ tail, (ctLoop shuffleFn dial fuel p st).2.dialedFail
        = st.dialedFail ++ tail) ∧
      (∀ up e, (ctLoop shuffleFn dial fuel p st).1 = CTRes.ret up e →
        (∃ q, up = some q ∧ e = none) ∨
        (up = none ∧
          e = (ctLoop shuffleFn dial fuel p st).2.dialedFail.getLast?.map
            ConnErr.dialErr)) ∧
      (∀ e, (ctLoop shuffleFn dial fuel p st).1 = CTRes.ret none e →
        (ctLoop shuffleFn dial fuel p st).2.dialedFail = [] →
        fuel = 0 ∨ p ∈ st.tried) := by
  intro fuel
  induction fuel with
  | zero =>
    intro p st hdead hlast hnd hsub
    have heq0 : ctLoop shuffleFn dial 0 p st
        = (CTRes.ret none st.lastErr, st) := rfl
    rw [heq0]
    refine ⟨hdead, hnd, Nat.le_refl _, ⟨[], (List.append_nil _).symm⟩,
      ?_, ?_⟩
    · intro up e hret
      injection hret with h1 h2
      exact Or.inr ⟨h1.symm, by rw [← h2, hlast]⟩
    · intro e _ _
      exact Or.inl rfl
  | succ fuel ih =>
    intro p st hdead hlast hnd hsub
    by_cases hmem : p ∈ st.tried
    · rw [ctLoop_succ_tried shuffleFn dial fuel p st hmem]
      rcases hnx : Next shuffleFn st.rs with ⟨r, rs2⟩
      have halive2 : rs2.alive = st.rs.alive := by
        have hfr := (next_frame shuffleFn st.rs).1
        rw [hnx] at hfr
        exact hfr
      cases r with
      | ok q =>
        dsimp only
        have hres := ih q { st with iters := st.iters + 1, rs := rs2 }
          (by intro q2 hq2; rw [halive2]; exact hdead q2 hq2)
          hlast hnd hsub
        obtain ⟨r1, r2, r3, r4, r5, r6⟩ := hres
        refine ⟨r1, r2, ?_, r4, r5, fun e h1 h2 => Or.inr hmem⟩
        dsimp only at r3
        omega
      | err e2 =>
        dsimp only
        refine ⟨?_, hnd, by omega, ⟨[], (List.append_nil _).symm⟩, ?_, ?_⟩
        · intro q2 hq2
          rw [halive2]
          exact hdead q2 hq2
        · intro up e hret
          injection hret with h1 h2
          exact Or.inr ⟨h1.symm, by rw [← h2, hlast]⟩
        · intro e h1 h2
          exact Or.inr hmem
      | outOfRange =>
        dsimp only
        refine ⟨?_, hnd, by omega, ⟨[], (List.append_nil _).symm⟩, ?_, ?_⟩
        · intro q2 hq2
          rw [halive2]
          exact hdead q2 hq2
        · intro up e hret
          cases hret
        · intro e hret
          cases hret
    · by_cases hdial : dial p = true
      · rw [ctLoop_succ_dial_ok shuffleFn dial fuel p st hmem hdial]
        dsimp only
        refine ⟨hdead, hnd, by omega, ⟨[], (List.append_nil _).symm⟩,
          ?_, ?_⟩
        · intro up e hret
          injection hret with h1 h2
          exact Or.inl ⟨p, h1.symm, h2.symm⟩
        · intro e hret
          injection hret with h1 h2
          cases h1
      · have hdf : dial p = false := by
          cases hval : dial p
          · rfl
          · exact absurd hval hdial
        rw [ctLoop_succ_dial_fail shuffleFn dial fuel p st hmem hdf]
        have hpnotin : p ∉ st.dialedFail := fun h => hmem (hsub p h)
        have hmd : (MarkDead p st.rs).alive
            = fun q => if q = p then false else st.rs.alive q :=
          markDead_alive p st.rs
        rcases hnx : Next shuffleFn (MarkDead p st.rs) with ⟨r, rs2⟩
        have halive2 : rs2.alive = (MarkDead p st.rs).alive := by
          have hfr := (next_frame shuffleFn (MarkDead p st.rs)).1
          rw [hnx] at hfr
          exact hfr
        have hdead3 : ∀ q ∈ st.dialedFail ++ [p],
            rs2.alive q = false := by
          intro q hq
          rw [halive2, hmd]
          rcases List.mem_append.mp hq with hq2 | hq2
          · by_cases hqp : q = p
            · simp [hqp]
            · simp only [hqp, if_false]
              exact hdead q hq2
          · have hqp : q = p := by simpa using hq2
            simp [hqp]
        have hlast3 : some (ConnErr.dialErr p)
            = ((st.dialedFail ++ [p]).getLast?).map ConnErr.dialErr := by
          rw [List.getLast?_concat]
          rfl
        have hnd3 : (st.dialedFail ++ [p]).Nodup := by
          rw [List.nodup_append]
          refine ⟨hnd, List.nodup_singleton p, ?_⟩
          intro a ha hb
          have hb2 : a = p := by simpa using hb
          rw [hb2] at ha
          exact hpnotin ha
        have hsub3 : ∀ q ∈ st.dialedFail ++ [p], q ∈ p :: st.tried := by
          intro q hq
          rcases List.mem_append.mp hq with hq2 | hq2
          · exact List.mem_cons_of_mem p (hsub q hq2)
          · have hqp : q = p := by simpa using hq2
            rw [hqp]
            exact List.mem_cons_self p st.tried
        cases r with
        | ok q =>
          dsimp only
          have hres := ih q
            { st with
              iters := st.iters + 1
              tried := p :: st.tried
              lastErr := some (ConnErr.dialErr p)
              dialedFail := st.dialedFail ++ [p]
              rs := rs2 }
            hdead3 hlast3 hnd3 hsub3
          obtain ⟨r1, r2, r3, r4, r5, r6⟩ := hres
          obtain ⟨tail, htail⟩ := r4
          refine ⟨r1, r2, by dsimp only at r3; omega, ?_, r5, ?_⟩
          · refine ⟨p :: tail, ?_⟩
            rw [htail, List.append_assoc]
            rfl
          · intro e h1 h2
            exfalso
            rw [htail] at h2
            have h3 := (List.append_eq_nil.mp h2).1
            cases hdf2 : st.dialedFail with
            | nil => rw [hdf2] at h3; cases h3
            | cons a l2 => rw [hdf2] at h3; cases h3
        | err e2 =>
          dsimp only
          refine ⟨hdead3, hnd3, by omega, ⟨[p], rfl⟩, ?_, ?_⟩
          · intro up e hret
            injection hret with h1 h2
            refine Or.inr ⟨h1.symm, ?_⟩
            rw [← h2]
            exact hlast3
          · intro e hret h2
            exfalso
            cases hdf2 : st.dialedFail with
            | nil => rw [hdf2] at h2; cases h2
            | cons a l2 => rw [hdf2] at h2; cases h2
        | outOfRange =>
          dsimp only
          refine ⟨hdead3, hnd3, by omega, ⟨[p], rfl⟩, ?_, ?_⟩
          · intro up e hret
            cases hret
          · intro e hret
            cases hret

end IpLoop

namespace IpLoop

end IpLoop

namespace IpLoop

/-- The budget equals clamp(count, 3, 10). -/
theorem maxRetriesFor_eq (c : Nat) : maxRetriesFor c = max 3 (min c 10) := by
  rw [maxRetriesFor]
  by_cases h1 : c > 10
  · simp only [if_pos h1]
    rw [if_neg (by decide : ¬(10 : Nat) < 3)]
    omega
  · simp only [if_neg h1]
    by_cases h2 : c < 3
    · simp only [if_pos h2]
      omega
    · simp only [if_neg h2]
      omega

/-- The budget is at least 3. -/
theorem maxRetriesFor_ge_three (c : Nat) : 3 ≤ maxRetriesFor c := by
  rw [maxRetriesFor_eq]
  omega

/-- C3: the bounded-retry driver computes the budget
R = clamp(count, 3, 10); within one request it maintains a tried set (no
endpoint is dialed twice: the failed-dial list has no duplicates), marks
every endpoint whose dial failed dead (they are dead in the final state),
executes at most R loop iterations, and on failure returns nil together with
the last dial error (or the rotator error when no dial was attempted). -/
theorem c3_retry_driver_budget :
    (∀ c, maxRetriesFor c = max 3 (min c 10)) ∧
    (∀ (shuffleFn : List Nat → List Nat) (dial : Nat → Bool)
      (rs : RotState),
      (∀ q ∈ (connectToTarget shuffleFn dial rs).2.dialedFail,
        (connectToTarget shuffleFn dial rs).2.rs.alive q = false) ∧
      (connectToTarget shuffleFn dial rs).2.dialedFail.Nodup ∧
      (connectToTarget shuffleFn dial rs).2.iters
        ≤ maxRetriesFor rs.rot.proxies.length ∧
      (∀ up e, (connectToTarget shuffleFn dial rs).1 = CTRes.ret up e →
        (∃ q, up = some q ∧ e = none) ∨
        (up = none ∧ (connectToTarget shuffleFn dial rs).2.dialedFail ≠ [] ∧
          e = ((connectToTarget shuffleFn dial
            rs).2.dialedFail.getLast?).map ConnErr.dialErr) ∨
        (up = none ∧ (connectToTarget shuffleFn dial rs).2.dialedFail = []
          ∧ ∃ re, e = some (ConnErr.rotErr re)))) := by
  constructor
  · intro c
    exact maxRetriesFor_eq c
  · intro shuffleFn dial rs
    rcases hnx : Next shuffleFn rs with ⟨r, rs2⟩
    have hpx : rs2.rot.proxies = rs.rot.proxies := by
      have hfr := (next_frame shuffleFn rs).2.1
      rw [hnx] at hfr
      exact hfr
    cases r with
    | err e0 =>
      have heq : connectToTarget shuffleFn dial rs
          = (CTRes.ret none (some (ConnErr.rotErr e0)),
             { rs := rs2, tried := [], lastErr := none, dialedFail := [],
               iters := 0 }) := by
        rw [connectToTarget, hnx]
      rw [heq]
      refine ⟨?_, ?_, ?_, ?_⟩
      · intro q hq
        cases hq
      · exact List.nodup_nil
      · dsimp only
        exact Nat.zero_le _
      · intro up e hret
        injection hret with h1 h2
        exact Or.inr (Or.inr ⟨h1.symm, rfl, e0, h2.symm⟩)
    | outOfRange =>
      have heq : connectToTarget shuffleFn dial rs
          = (CTRes.crashed,
             { rs := rs2, tried := [], lastErr := none, dialedFail := [],
               iters := 0 }) := by
        rw [connectToTarget, hnx]
      rw [heq]
      refine ⟨?_, ?_, ?_, ?_⟩
      · intro q hq
        cases hq
      · exact List.nodup_nil
      · dsimp only
        exact Nat.zero_le _
      · intro up e hret
        cases hret
    | ok p =>
      have heq : connectToTarget shuffleFn dial rs
          = ctLoop shuffleFn dial (maxRetriesFor rs2.rot.proxies.length) p
            { rs := rs2, tried := [], lastErr := none, dialedFail := [],
              iters := 0 } := by
        rw [connectToTarget, hnx]
      obtain ⟨r1, r2, r3, r4, r5, r6⟩ := ctLoop_spec shuffleFn dial
        (maxRetriesFor rs2.rot.proxies.length) p
        { rs := rs2, tried := [], lastErr := none, dialedFail := [],
          iters := 0 }
        (fun q hq => by cases hq) rfl List.nodup_nil
        (fun q hq => by cases hq)
      rw [← heq] at r1 r2 r3 r5 r6
      dsimp only at r3 r6
      refine ⟨r1, r2, ?_, ?_⟩
      · rw [hpx] at r3
        omega
      · intro up e hret
        rcases r5 up e hret with h | ⟨hup, he⟩
        · exact Or.inl h
        · by_cases hdf :
              (connectToTarget shuffleFn dial rs).2.dialedFail = []
          · exfalso
            subst hup
            rcases r6 e hret hdf with h0 | hin
            · have h3 := maxRetriesFor_ge_three rs2.rot.proxies.length
              omega
            · cases hin
          · exact Or.inr (Or.inl ⟨hup, hdf, he⟩)

end IpLoop

namespace IpLoop

/-- Witness for C3: pool of one endpoint, every dial fails: the endpoint is
marked dead, the driver gives up after exactly R = clamp(1,3,10) = 3
iterations with the last dial error and a nil proxy. -/
theorem c3_retry_driver_budget_witness :
    (connectToTarget id (fun _ => false)
        (runOps fpId id RotStrategy.sequential false 1
          [RotOp.add 1])).2.rs.alive 1 = false ∧
    (connectToTarget id (fun _ => false)
        (runOps fpId id RotStrategy.sequential false 1
          [RotOp.add 1])).2.iters = 3 ∧
    (connectToTarget id (fun _ => false)
        (runOps fpId id RotStrategy.sequential false 1
          [RotOp.add 1])).1 = CTRes.ret none (some (ConnErr.dialErr 1)) :=
  ⟨(c3_retry_driver_budget.2 id (fun _ => false)
      (runOps fpId id RotStrategy.sequential false 1 [RotOp.add 1])).1 1
      (by decide),
   by decide, by decide⟩

/-- On every failure path `connectToTarget` returns a nil `usedProxy`. -/
theorem connectToTarget_err_no_proxy (shuffleFn : List Nat → List Nat)
    (dial : Nat → Bool) (rs : RotState) (up : Option Nat) (e : ConnErr)
    (h : (connectToTarget shuffleFn dial rs).1 = CTRes.ret up (some e)) :
    up = none := by
  rcases hnx : Next shuffleFn rs with ⟨r, rs2⟩
  cases r with
  | err e0 =>
    have heq : connectToTarget shuffleFn dial rs
        = (CTRes.ret none (some (ConnErr.rotErr e0)),
           { rs := rs2, tried := [], lastErr := none, dialedFail := [],
             iters := 0 }) := by
      rw [connectToTarget, hnx]
    rw [heq] at h
    injection h with h1 h2
    exact h1.symm
  | outOfRange =>
    have heq : connectToTarget shuffleFn dial rs
        = (CTRes.crashed,
           { rs := rs2, tried := [], lastErr := none, dialedFail := [],
             iters := 0 }) := by
      rw [connectToTarget, hnx]
    rw [heq] at h
    cases h
  | ok p =>
    have heq : connectToTarget shuffleFn dial rs
        = ctLoop shuffleFn dial (maxRetriesFor rs2.rot.proxies.length) p
          { rs := rs2, tried := [], lastErr := none, dialedFail := [],
            iters := 0 } := by
      rw [connectToTarget, hnx]
    rw [heq] at h
    obtain ⟨_, _, _, _, r5, _⟩ := ctLoop_spec shuffleFn dial
      (maxRetriesFor rs2.rot.proxies.length) p
      { rs := rs2, tried := [], lastErr := none, dialedFail := [],
        iters := 0 }
      (fun q hq => by cases hq) rfl List.nodup_nil
      (fun q hq => by cases hq)
    rcases r5 up (some e) h with ⟨q, _, hnone⟩ | ⟨hup, _⟩
    · cases hnone
    · exact hup

/-- C2 (amended): when the dial ultimately fails, `connectToTarget` returns
a nil endpoint alongside the error, so `handleNormal` calls `RecordFailure`
on no endpoint (the guarded call never fires) and only replies
host-unreachable; when the dial succeeds, `RecordRequest` is called exactly
once, with the end-to-end dial latency, on the endpoint that was used. -/
theorem c2_record_calls_on_outcome (shuffleFn : List Nat → List Nat)
    (dial : Nat → Bool) (latency : Nat) (rs : RotState) :
    (∀ up e, (connectToTarget shuffleFn dial rs).1 = CTRes.ret up (some e) →
      up = none ∧
      (handleNormal shuffleFn dial latency rs).1
        = [SrvEvent.reply replyHostUnreach]) ∧
    (∀ p, (connectToTarget shuffleFn dial rs).1 = CTRes.ret (some p) none →
      (handleNormal shuffleFn dial latency rs).1
        = [SrvEvent.recordRequest p latency, SrvEvent.reply replySuccess]) := by
  have hpair : connectToTarget shuffleFn dial rs
      = ((connectToTarget shuffleFn dial rs).1,
         (connectToTarget shuffleFn dial rs).2) := rfl
  constructor
  · intro up e h
    have hup : up = none :=
      connectToTarget_err_no_proxy shuffleFn dial rs up e h
    subst hup
    refine ⟨rfl, ?_⟩
    rw [handleNormal, hpair, h]
    rfl
  · intro p h
    rw [handleNormal, hpair, h]
    rfl

/-- Counterexample to C2 as stated: a pool with the single endpoint 1 whose
dial always fails.  The dial ultimately fails, endpoint 1 is the last (and
only) attempted endpoint, yet `handleNormal` emits no `RecordFailure` call at
all — `connectToTarget` returned a nil `usedProxy` with the error, so the
failures counter of endpoint 1 is not incremented (not incremented once, as
claimed). -/
theorem c2_counterexample :
    (connectToTarget id (fun _ => false)
        (runOps fpId id RotStrategy.sequential false 1 [RotOp.add 1])).1
      = CTRes.ret none (some (ConnErr.dialErr 1)) ∧
    (connectToTarget id (fun _ => false)
        (runOps fpId id RotStrategy.sequential false 1
          [RotOp.add 1])).2.dialedFail = [1] ∧
    (handleNormal id (fun _ => false) 7
        (runOps fpId id RotStrategy.sequential false 1 [RotOp.add 1])).1
      = [SrvEvent.reply replyHostUnreach] := by
  decide

/-- Witness for C2 (amended): failing run (no record event at all) and a
succeeding run (exactly one `RecordRequest` with the latency on the used
endpoint). -/
theorem c2_record_calls_on_outcome_witness :
    (handleNormal id (fun _ => false) 7
        (runOps fpId id RotStrategy.sequential false 1 [RotOp.add 1])).1
      = [SrvEvent.reply replyHostUnreach] ∧
    (handleNormal id (fun _ => true) 7
        (runOps fpId id RotStrategy.sequential false 1 [RotOp.add 1])).1
      = [SrvEvent.recordRequest 1 7, SrvEvent.reply replySuccess] :=
  ⟨((c2_record_calls_on_outcome id (fun _ => false) 7
      (runOps fpId id RotStrategy.sequential false 1 [RotOp.add 1])).1
      none (ConnErr.dialErr 1) (by decide)).2,
   (c2_record_calls_on_outcome id (fun _ => true) 7
      (runOps fpId id RotStrategy.sequential false 1 [RotOp.add 1])).2
      1 (by decide)⟩

end IpLoop

namespace IpLoop

/-- The standard base64 alphabet (dialer.go `base64Encode`, `const alpha`). -/
def b64Alpha : List Char :=
  "ABCDEFGHIJKLMNOPQRSTUVWXYZabcdefghijklmnopqrstuvwxyz0123456789+/".toList

/-- `alpha[i]` (every index the encoder produces is < 64). -/
def alphaChar (i : Nat) : Char := b64Alpha.getD i '?'

/-- dialer.go `base64Encode`, processing the input three bytes at a time.
Bytes are naturals < 256; `uint32` arithmetic never exceeds 2^24 here, so
plain `Nat` arithmetic is exact. -/
def base64Encode (data : List Nat) : List Char :=
  match data with
  | b1 :: b2 :: b3 :: rest =>
    let n := (b1 <<< 16) ||| (b2 <<< 8) ||| b3
    alphaChar (n >>> 18) :: alphaChar ((n >>> 12) &&& 63)
      :: alphaChar ((n >>> 6) &&& 63) :: alphaChar (n &&& 63)
      :: base64Encode rest
  | [b1, b2] =>
    let n := (b1 <<< 16) ||| (b2 <<< 8)
    [alphaChar (n >>> 18), alphaChar ((n >>> 12) &&& 63),
     alphaChar ((n >>> 6) &&& 63), '=']
  | [b1] =>
    let n := b1 <<< 16
    [alphaChar (n >>> 18), alphaChar ((n >>> 12) &&& 63), '=', '=']
  | [] => []

/-- The eight bits of a byte, most significant first (RFC 4648 reads the
input as a big-endian bit string). -/
def byteBits (b : Nat) : List Bool :=
  [b.testBit 7, b.testBit 6, b.testBit 5, b.testBit 4,
   b.testBit 3, b.testBit 2, b.testBit 1, b.testBit 0]

/-- Value of a big-endian bit string. -/
def bitsVal (bits : List Bool) : Nat :=
  bits.foldl (fun acc bit => 2 * acc + (if bit then 1 else 0)) 0

/-- Split a bit string into 6-bit groups, zero-padding the final partial
group on the right (RFC 4648 section 4). -/
def sextets : List Bool → List Nat
  | b1 :: b2 :: b3 :: b4 :: b5 :: b6 :: rest =>
    bitsVal [b1, b2, b3, b4, b5, b6] :: sextets rest
  | [] => []
  | bits => [bitsVal (bits ++ List.replicate (6 - bits.length) false)]

/-- Reference RFC 4648 standard encoding, written from the spec: concatenate
the bits of the input, split into 6-bit groups (zero-padded), map through the
standard alphabet, then pad with `=` to a multiple of four characters. -/
def rfc4648Encode (data : List Nat) : List Char :=
  let chars := (sextets (data.map byteBits).flatten).map alphaChar
  chars ++ List.replicate ((4 - chars.length % 4) % 4) ('=' : Char)

end IpLoop


namespace IpLoop

/-- Low bits of `a * 2^k + b` are the bits of `b`. -/
theorem testBit_mul_pow_add_low (a : Nat) {b k : Nat} (_hb : b < 2 ^ k)
    {i : Nat} (hik : i < k) :
    (a * 2 ^ k + b).testBit i = b.testBit i := by
  rw [Nat.testBit_to_div_mod, Nat.testBit_to_div_mod]
  congr 1
  have h1 : (2 : Nat) ^ k = 2 ^ i * 2 ^ (k - i) := by
    rw [← pow_add]
    congr 1
    omega
  have h2 : a * 2 ^ k + b = b + 2 ^ i * (a * 2 ^ (k - i)) := by
    rw [h1]
    ring
  rw [h2, Nat.add_mul_div_left _ _ (Nat.pos_pow_of_pos i (by omega))]
  have h3 : a * 2 ^ (k - i) = a * 2 ^ (k - i - 1) * 2 := by
    rw [mul_assoc, ← pow_succ]
    congr 2
    omega
  rw [h3, Nat.add_mul_mod_self_right]

/-- High bits of `a * 2^k + b` are the bits of `a`. -/
theorem testBit_mul_pow_add_high (a : Nat) {b k : Nat} (hb : b < 2 ^ k)
    (j : Nat) :
    (a * 2 ^ k + b).testBit (k + j) = a.testBit j := by
  rw [Nat.testBit_to_div_mod, Nat.testBit_to_div_mod]
  congr 1
  have h1 : (a * 2 ^ k + b) / 2 ^ (k + j)
      = (a * 2 ^ k + b) / 2 ^ k / 2 ^ j := by
    rw [Nat.div_div_eq_div_mul, ← pow_add]
  have h2 : (a * 2 ^ k + b) / 2 ^ k = a := by
    have h3 : a * 2 ^ k + b = b + 2 ^ k * a := by ring
    rw [h3, Nat.add_mul_div_left _ _ (Nat.pos_pow_of_pos k (by omega)),
      Nat.div_eq_of_lt hb]
    omega
  rw [h1, h2]

/-- A shifted value or-ed with a small value is their sum: the Go encoder
packs disjoint bit ranges with `|`. -/
theorem shiftLeft_or_eq_add (a : Nat) {b k : Nat} (hb : b < 2 ^ k) :
    (a <<< k) ||| b = a * 2 ^ k + b := by
  apply Nat.eq_of_testBit_eq
  intro i
  rw [Nat.testBit_or, Nat.testBit_shiftLeft]
  by_cases hik : i < k
  · rw [testBit_mul_pow_add_low a hb hik]
    have hd : decide (k ≤ i) = false := by
      simp
      omega
    rw [hd]
    simp
  · obtain ⟨j, rfl⟩ : ∃ j, i = k + j := ⟨i - k, by omega⟩
    rw [testBit_mul_pow_add_high a hb j]
    have hd : decide (k ≤ k + j) = true := by simp
    rw [hd]
    have hbf : b.testBit (k + j) = false :=
      Nat.testBit_lt_two_pow
        (lt_of_lt_of_le hb (Nat.pow_le_pow_right (by omega) (by omega)))
    rw [hbf]
    have hsub : k + j - k = j := by omega
    rw [hsub]
    simp

/-- The two-byte pack. -/
theorem or2_eq (b1 b2 : Nat) (h2 : b2 < 256) :
    (b1 <<< 16) ||| (b2 <<< 8) = b1 * 65536 + b2 * 256 := by
  have e2 : b2 <<< 8 = b2 * 256 := by
    rw [Nat.shiftLeft_eq]
  have h4 : b2 <<< 8 < 2 ^ 16 := by
    rw [e2, show (2 : Nat) ^ 16 = 65536 from by norm_num]
    omega
  rw [shiftLeft_or_eq_add b1 h4, e2,
    show (2 : Nat) ^ 16 = 65536 from by norm_num]

/-- The three-byte pack. -/
theorem or3_eq (b1 b2 b3 : Nat) (h2 : b2 < 256) (h3 : b3 < 256) :
    (b1 <<< 16) ||| (b2 <<< 8) ||| b3 = b1 * 65536 + b2 * 256 + b3 := by
  rw [or2_eq b1 b2 h2]
  have e4 : b1 * 65536 + b2 * 256 = (b1 * 256 + b2) <<< 8 := by
    rw [Nat.shiftLeft_eq, show (2 : Nat) ^ 8 = 256 from by norm_num]
    ring
  have h5 : b3 < 2 ^ 8 := by
    rw [show (2 : Nat) ^ 8 = 256 from by norm_num]
    omega
  rw [e4, shiftLeft_or_eq_add _ h5, Nat.shiftLeft_eq,
    show (2 : Nat) ^ 8 = 256 from by norm_num]

/-- `&&& 63` is `% 64`. -/
theorem and63_eq_mod (n : Nat) : n &&& 63 = n % 64 := by
  have h := Nat.and_pow_two_sub_one_eq_mod n 6
  norm_num at h
  exact h

/-- Byte-sized ite-to-arithmetic conversion for a single bit. -/
theorem ite_testBit (x i : Nat) :
    (if x.testBit i = true then 1 else 0) = x / 2 ^ i % 2 := by
  rw [Nat.testBit_to_div_mod]
  rcases Nat.mod_two_eq_zero_or_one (x / 2 ^ i) with h | h <;> simp [h]

end IpLoop

namespace IpLoop

/-- First output sextet of a three-byte group: the top six bits of `b1`. -/
theorem sextet18 (b1 b2 b3 : Nat) (h1 : b1 < 256) (h2 : b2 < 256)
    (h3 : b3 < 256) :
    (b1 <<< 16 ||| b2 <<< 8 ||| b3) >>> 18
      = bitsVal [b1.testBit 7, b1.testBit 6, b1.testBit 5, b1.testBit 4,
          b1.testBit 3, b1.testBit 2] := by
  rw [or3_eq b1 b2 b3 h2 h3, Nat.shiftRight_eq_div_pow]
  simp only [bitsVal, List.foldl, ite_testBit]
  show (b1 * 65536 + b2 * 256 + b3) / 2 ^ 18
    = 2 * (2 * (2 * (2 * (2 * (2 * 0 + b1 / 2 ^ 7 % 2) + b1 / 2 ^ 6 % 2)
        + b1 / 2 ^ 5 % 2) + b1 / 2 ^ 4 % 2) + b1 / 2 ^ 3 % 2) + b1 / 2 ^ 2 % 2
  omega

/-- Second output sextet: low two bits of `b1`, top four of `b2`. -/
theorem sextet12 (b1 b2 b3 : Nat) (_h1 : b1 < 256) (h2 : b2 < 256)
    (h3 : b3 < 256) :
    ((b1 <<< 16 ||| b2 <<< 8 ||| b3) >>> 12) &&& 63
      = bitsVal [b1.testBit 1, b1.testBit 0, b2.testBit 7, b2.testBit 6,
          b2.testBit 5, b2.testBit 4] := by
  rw [or3_eq b1 b2 b3 h2 h3, Nat.shiftRight_eq_div_pow, and63_eq_mod]
  simp only [bitsVal, List.foldl, ite_testBit]
  show (b1 * 65536 + b2 * 256 + b3) / 2 ^ 12 % 64
    = 2 * (2 * (2 * (2 * (2 * (2 * 0 + b1 / 2 ^ 1 % 2) + b1 / 2 ^ 0 % 2)
        + b2 / 2 ^ 7 % 2) + b2 / 2 ^ 6 % 2) + b2 / 2 ^ 5 % 2) + b2 / 2 ^ 4 % 2
  omega

/-- Third output sextet: low four bits of `b2`, top two of `b3`. -/
theorem sextet6 (b1 b2 b3 : Nat) (_h1 : b1 < 256) (h2 : b2 < 256)
    (h3 : b3 < 256) :
    ((b1 <<< 16 ||| b2 <<< 8 ||| b3) >>> 6) &&& 63
      = bitsVal [b2.testBit 3, b2.testBit 2, b2.testBit 1, b2.testBit 0,
          b3.testBit 7, b3.testBit 6] := by
  rw [or3_eq b1 b2 b3 h2 h3, Nat.shiftRight_eq_div_pow, and63_eq_mod]
  simp only [bitsVal, List.foldl, ite_testBit]
  show (b1 * 65536 + b2 * 256 + b3) / 2 ^ 6 % 64
    = 2 * (2 * (2 * (2 * (2 * (2 * 0 + b2 / 2 ^ 3 % 2) + b2 / 2 ^ 2 % 2)
        + b2 / 2 ^ 1 % 2) + b2 / 2 ^ 0 % 2) + b3 / 2 ^ 7 % 2) + b3 / 2 ^ 6 % 2
  omega

/-- Fourth output sextet: the low six bits of `b3`. -/
theorem sextet0 (b1 b2 b3 : Nat) (_h1 : b1 < 256) (h2 : b2 < 256)
    (h3 : b3 < 256) :
    (b1 <<< 16 ||| b2 <<< 8 ||| b3) &&& 63
      = bitsVal [b3.testBit 5, b3.testBit 4, b3.testBit 3, b3.testBit 2,
          b3.testBit 1, b3.testBit 0] := by
  rw [or3_eq b1 b2 b3 h2 h3, and63_eq_mod]
  simp only [bitsVal, List.foldl, ite_testBit]
  show (b1 * 65536 + b2 * 256 + b3) % 64
    = 2 * (2 * (2 * (2 * (2 * (2 * 0 + b3 / 2 ^ 5 % 2) + b3 / 2 ^ 4 % 2)
        + b3 / 2 ^ 3 % 2) + b3 / 2 ^ 2 % 2) + b3 / 2 ^ 1 % 2) + b3 / 2 ^ 0 % 2
  omega

/-- `sextets` consumes six bits at a time. -/
theorem sextets_cons6 (x1 x2 x3 x4 x5 x6 : Bool) (rest : List Bool) :
    sextets (x1 :: x2 :: x3 :: x4 :: x5 :: x6 :: rest)
      = bitsVal [x1, x2, x3, x4, x5, x6] :: sextets rest := rfl

/-- A four-bit remainder is zero-padded on the right. -/
theorem sextets_four (x1 x2 x3 x4 : Bool) :
    sextets [x1, x2, x3, x4] = [bitsVal [x1, x2, x3, x4, false, false]] := rfl

/-- A two-bit remainder is zero-padded on the right. -/
theorem sextets_two (x1 x2 : Bool) :
    sextets [x1, x2] = [bitsVal [x1, x2, false, false, false, false]] := rfl

/-- Peeling three input bytes off the reference encoding produces four
characters and leaves the encoding of the remaining bytes (24 bits are
exactly four sextets, and the padding need of the tail is unchanged). -/
theorem rfc_cons3 (b1 b2 b3 : Nat) (rest : List Nat) :
    rfc4648Encode (b1 :: b2 :: b3 :: rest)
      = alphaChar (bitsVal [b1.testBit 7, b1.testBit 6, b1.testBit 5,
            b1.testBit 4, b1.testBit 3, b1.testBit 2])
        :: alphaChar (bitsVal [b1.testBit 1, b1.testBit 0, b2.testBit 7,
            b2.testBit 6, b2.testBit 5, b2.testBit 4])
        :: alphaChar (bitsVal [b2.testBit 3, b2.testBit 2, b2.testBit 1,
            b2.testBit 0, b3.testBit 7, b3.testBit 6])
        :: alphaChar (bitsVal [b3.testBit 5, b3.testBit 4, b3.testBit 3,
            b3.testBit 2, b3.testBit 1, b3.testBit 0])
        :: rfc4648Encode rest := by
  simp only [rfc4648Encode, List.map_cons, List.flatten_cons, byteBits,
    List.cons_append, List.nil_append, sextets_cons6, List.map_cons,
    List.length_cons]
  have hlen : ∀ L : Nat,
      (4 - (L + 1 + 1 + 1 + 1) % 4) % 4 = (4 - L % 4) % 4 := by
    intro L; omega
  rw [hlen]

/-- C9: for every byte string, the hand-written `base64Encode` used for
Proxy-Authorization equals the RFC 4648 standard base64 encoding (alphabet
A-Z a-z 0-9 + /, with `=` padding to a multiple of four output
characters). -/
theorem c9_base64_matches_rfc4648 (data : List Nat)
    (hdata : ∀ b ∈ data, b < 256) :
    base64Encode data = rfc4648Encode data := by
  induction data using base64Encode.induct with
  | case1 b1 b2 b3 rest ih =>
    have h1 : b1 < 256 := hdata b1 (by simp)
    have h2 : b2 < 256 := hdata b2 (by simp)
    have h3 : b3 < 256 := hdata b3 (by simp)
    have hrest : ∀ b ∈ rest, b < 256 := fun b hb => hdata b (by simp [hb])
    rw [rfc_cons3]
    simp only [base64Encode]
    rw [sextet18 b1 b2 b3 h1 h2 h3, sextet12 b1 b2 b3 h1 h2 h3,
      sextet6 b1 b2 b3 h1 h2 h3, sextet0 b1 b2 b3 h1 h2 h3, ih hrest]
  | case2 b1 b2 =>
    have h1 : b1 < 256 := hdata b1 (by simp)
    have h2 : b2 < 256 := hdata b2 (by simp)
    have hz : (b1 <<< 16 ||| b2 <<< 8) = (b1 <<< 16 ||| b2 <<< 8 ||| 0) :=
      (Nat.or_zero _).symm
    simp only [base64Encode, rfc4648Encode, List.map_cons, List.map_nil,
      List.flatten_cons, List.flatten_nil, byteBits, List.cons_append,
      List.nil_append, List.append_nil, sextets_cons6, sextets_four,
      List.map_cons, List.length_cons, List.length_nil]
    rw [hz, sextet18 b1 b2 0 h1 h2 (by omega),
      sextet12 b1 b2 0 h1 h2 (by omega), sextet6 b1 b2 0 h1 h2 (by omega)]
    simp [Nat.zero_testBit, List.replicate]
  | case3 b1 =>
    have h1 : b1 < 256 := hdata b1 (by simp)
    have hz : b1 <<< 16 = (b1 <<< 16 ||| 0 <<< 8 ||| 0) := by
      simp [Nat.shiftLeft_eq]
    simp only [base64Encode, rfc4648Encode, List.map_cons, List.map_nil,
      List.flatten_cons, List.flatten_nil, byteBits, List.cons_append,
      List.nil_append, List.append_nil, sextets_cons6, sextets_two,
      List.map_cons, List.length_cons, List.length_nil]
    rw [hz, sextet18 b1 0 0 h1 (by omega) (by omega),
      sextet12 b1 0 0 h1 (by omega) (by omega)]
    simp [Nat.zero_testBit, List.replicate]
  | case4 => rfl

/-- C9 at a concrete input: the bytes of "Man" encode to "TWFu" under both
definitions. -/
theorem c9_base64_matches_rfc4648_witness :
    (∀ b ∈ [77, 97, 110], b < 256)
      ∧ base64Encode [77, 97, 110] = rfc4648Encode [77, 97, 110] :=
  ⟨by decide, c9_base64_matches_rfc4648 [77, 97, 110] (by decide)⟩

end IpLoop

namespace IpLoop

/-
Endpoint parsing (NewProxy, src/unnamed/part_004) and its use of the Go
standard library net/url.  The stdlib is not part of this repository, so the
fragment of url.Parse that NewProxy consumes (Scheme, User, Hostname(),
Port()) is embedded here for absolute URLs with an authority component:
scheme ":" "//" [userinfo "@"] host [":" port] [path...].  URL shapes
outside this fragment (no scheme, opaque URLs) make Go return a URL with an
empty Scheme or empty Hostname, which NewProxy then rejects; the model folds
those into a parse failure, which is acceptance-equivalent for NewProxy.
Percent-escape validation and IPv6 zone identifiers are not modeled; the
model accepts a superset of Go there, so universally quantified theorems
below cover all strings Go accepts.  Crucially, the port validation is
modeled exactly: Go validOptionalPort only requires every character after
the colon to be a decimal digit, with no range check.
-/

/-- Whitespace trimmed by strings.TrimSpace (ASCII subset). -/
def isSpaceCh (c : Char) : Bool :=
  c == ' ' || c == '\t' || c == '\n' || c == '\r'

/-- strings.TrimSpace. -/
def trimSpace (s : List Char) : List Char :=
  ((s.dropWhile isSpaceCh).reverse.dropWhile isSpaceCh).reverse

/-- ASCII letter. -/
def isAlphaCh (c : Char) : Bool :=
  (97 ≤ c.toNat && c.toNat ≤ 122) || (65 ≤ c.toNat && c.toNat ≤ 90)

/-- ASCII digit. -/
def isDigitCh (c : Char) : Bool := 48 ≤ c.toNat && c.toNat ≤ 57

/-- Characters allowed in a URL scheme after the leading letter
(net/url getScheme). -/
def isSchemeCh (c : Char) : Bool :=
  isAlphaCh c || isDigitCh c || c == '+' || c == '-' || c == '.'

/-- ASCII lower-casing (strings.ToLower on the scheme characters). -/
def toLowerCh (c : Char) : Char :=
  if 65 ≤ c.toNat && c.toNat ≤ 90 then Char.ofNat (c.toNat + 32) else c

/-- Split at the first occurrence of `sep`; `none` when absent. -/
def splitFirst (sep : Char) : List Char → Option (List Char × List Char)
  | [] => none
  | c :: rest =>
    if c == sep then some ([], rest)
    else
      match splitFirst sep rest with
      | some (a, b) => some (c :: a, b)
      | none => none

/-- Split at the last occurrence of `sep` (strings.LastIndexByte). -/
def splitLast (sep : Char) (s : List Char) : Option (List Char × List Char) :=
  match splitFirst sep s.reverse with
  | some (a, b) => some (b.reverse, a.reverse)
  | none => none

/-- net/url validOptionalPort, applied to the part after the colon: every
character must be a decimal digit (the empty port is allowed).  There is no
numeric range check. -/
def validPortAfterColon (digs : List Char) : Bool := digs.all isDigitCh

/-- net/url parseHost combined with URL.Hostname() / URL.Port(): returns the
bracket-stripped hostname and the digits after the port colon ([] when the
URL carries no port). -/
def parseHost (hostPort : List Char) : Option (List Char × List Char) :=
  if hostPort.headD ' ' = '[' then
    match splitLast ']' hostPort with
    | none => none
    | some (bef, colonPort) =>
      if colonPort = [] then some (bef.drop 1, [])
      else if colonPort.headD ' ' = ':'
          && validPortAfterColon (colonPort.drop 1) then
        some (bef.drop 1, colonPort.drop 1)
      else none
  else
    match splitLast ':' hostPort with
    | none => some (hostPort, [])
    | some (bef, digs) =>
      if validPortAfterColon digs then some (bef, digs) else none

/-- Userinfo split at the first colon (Username() / Password()). -/
def splitUserPass (ui : List Char) : List Char × List Char :=
  match splitFirst ':' ui with
  | none => (ui, [])
  | some (u, p) => (u, p)

/-- The URL fields NewProxy reads. -/
structure GoURL where
  scheme : List Char
  username : List Char
  password : List Char
  hostname : List Char
  port : List Char
  deriving DecidableEq

/-- net/url parseAuthority: userinfo before the last `@`, then the host. -/
def parseAuthority (authority : List Char) :
    Option ((List Char × List Char) × (List Char × List Char)) :=
  match splitLast '@' authority with
  | none => (parseHost authority).map (fun hp => (([], []), hp))
  | some (userinfo, hostport) =>
    (parseHost hostport).map (fun hp => (splitUserPass userinfo, hp))

/-- net/url Parse restricted to the fragment NewProxy consumes: a valid
scheme, the literal `//`, then the authority running to the first of
`/ ? #` (the remainder of the URL is not read by NewProxy). -/
def urlParse (raw : List Char) : Option GoURL :=
  match splitFirst ':' raw with
  | none => none
  | some (sch, rest) =>
    if sch ≠ [] && isAlphaCh (sch.headD ' ') && sch.all isSchemeCh then
      if rest.take 2 = "//".toList then
        let authority :=
          (rest.drop 2).takeWhile (fun c => !(c == '/' || c == '?' || c == '#'))
        match parseAuthority authority with
        | none => none
        | some ((u, pw), (h, pt)) => some ⟨sch.map toLowerCh, u, pw, h, pt⟩
      else none
    else none

/-- part_004 ProxyType. -/
inductive ProxyType
  | HTTP
  | HTTPS
  | SOCKS4
  | SOCKS5
  deriving DecidableEq

/-- part_004 Proxy, the parsed fields (`Type` is a Lean keyword, hence
`ptype`; the atomic counters are not part of parsing). -/
structure Proxy where
  ptype : ProxyType
  Host : List Char
  Port : List Char
  Username : List Char
  Password : List Char
  deriving DecidableEq

/-- part_004 NewProxy: trim, parse, require a hostname, dispatch on the
lower-cased scheme and default the port only when the URL carries none. -/
def NewProxy (rawURL : List Char) : Option Proxy :=
  let r := trimSpace rawURL
  if r = [] then none
  else
    match urlParse r with
    | none => none
    | some u =>
      if u.hostname = [] then none
      else
        let sch := u.scheme.map toLowerCh
        if sch = "http".toList then
          some ⟨ProxyType.HTTP, u.hostname,
            if u.port = [] then "80".toList else u.port, u.username, u.password⟩
        else if sch = "https".toList then
          some ⟨ProxyType.HTTPS, u.hostname,
            if u.port = [] then "443".toList else u.port, u.username,
            u.password⟩
        else if sch = "socks4".toList then
          some ⟨ProxyType.SOCKS4, u.hostname,
            if u.port = [] then "1080".toList else u.port, u.username,
            u.password⟩
        else if sch = "socks5".toList then
          some ⟨ProxyType.SOCKS5, u.hostname,
            if u.port = [] then "1080".toList else u.port, u.username,
            u.password⟩
        else none

/-- Numeric value of a decimal digit string (how the spec reads the port
field when it says 1..=65535). -/
def portNat (s : List Char) : Nat :=
  s.foldl (fun a c => 10 * a + (c.toNat - 48)) 0

/-- Any port delivered by `parseHost` is a digit string. -/
theorem parseHost_digits {hp h pt : List Char}
    (heq : parseHost hp = some (h, pt)) : pt.all isDigitCh = true := by
  unfold parseHost at heq
  by_cases hb : hp.headD ' ' = '['
  · rw [if_pos hb] at heq
    rcases hsl : splitLast ']' hp with _ | ⟨bef, colonPort⟩
    · rw [hsl] at heq; exact absurd heq (by simp)
    · rw [hsl] at heq
      dsimp only at heq
      by_cases hcp : colonPort = []
      · rw [if_pos hcp] at heq
        injection heq with heq2
        injection heq2 with _ hpt
        subst hpt
        rfl
      · rw [if_neg hcp] at heq
        by_cases hcol : (colonPort.headD ' ' = ':'
            && validPortAfterColon (colonPort.drop 1)) = true
        · rw [if_pos hcol] at heq
          injection heq with heq2
          injection heq2 with _ hpt
          subst hpt
          simp only [Bool.and_eq_true] at hcol
          exact hcol.2
        · rw [if_neg hcol] at heq; exact absurd heq (by simp)
  · rw [if_neg hb] at heq
    rcases hsl : splitLast ':' hp with _ | ⟨bef, digs⟩
    · rw [hsl] at heq
      dsimp only at heq
      injection heq with heq2
      injection heq2 with _ hpt
      subst hpt
      rfl
    · rw [hsl] at heq
      dsimp only at heq
      by_cases hd : validPortAfterColon digs = true
      · rw [if_pos hd] at heq
        injection heq with heq2
        injection heq2 with _ hpt
        subst hpt
        exact hd
      · rw [if_neg hd] at heq; exact absurd heq (by simp)

/-- Any port delivered by `parseAuthority` is a digit string. -/
theorem parseAuthority_digits {authority : List Char}
    {up : List Char × List Char} {h pt : List Char}
    (heq : parseAuthority authority = some (up, (h, pt))) :
    pt.all isDigitCh = true := by
  unfold parseAuthority at heq
  rcases hsl : splitLast '@' authority with _ | ⟨ui, hostport⟩ <;>
    rw [hsl] at heq <;> dsimp only at heq
  · rcases Option.map_eq_some'.mp heq with ⟨⟨h2, pt2⟩, hph, hf⟩
    simp only [Prod.mk.injEq] at hf
    rcases hf with ⟨-, -, hpt⟩
    exact hpt ▸ parseHost_digits hph
  · rcases Option.map_eq_some'.mp heq with ⟨⟨h2, pt2⟩, hph, hf⟩
    simp only [Prod.mk.injEq] at hf
    rcases hf with ⟨-, -, hpt⟩
    exact hpt ▸ parseHost_digits hph

/-- Any port delivered by `urlParse` is a digit string: the only validation
net/url performs on an explicit port. -/
theorem urlParse_digits {raw : List Char} {u : GoURL}
    (heq : urlParse raw = some u) : u.port.all isDigitCh = true := by
  unfold urlParse at heq
  rcases hsf : splitFirst ':' raw with _ | ⟨sch, rest⟩ <;> rw [hsf] at heq
  · exact absurd heq (by simp)
  · dsimp only at heq
    by_cases hs : (sch ≠ [] && isAlphaCh (sch.headD ' ')
        && sch.all isSchemeCh) = true
    · rw [if_pos hs] at heq
      by_cases hpre : rest.take 2 = "//".toList
      · rw [if_pos hpre] at heq
        rcases hpa : parseAuthority
            ((rest.drop 2).takeWhile
              (fun c => !(c == '/' || c == '?' || c == '#')))
          with _ | ⟨⟨uu, pw⟩, hh, pt⟩
        · rw [hpa] at heq; exact absurd heq (by simp)
        · rw [hpa] at heq
          injection heq with heq2
          subst heq2
          exact parseAuthority_digits hpa
      · rw [if_neg hpre] at heq
        exact absurd heq (by simp)
    · rw [if_neg hs] at heq
      exact absurd heq (by simp)

/-- The lower-cased scheme that produces each ProxyType in the NewProxy
switch. -/
def schemeName : ProxyType → List Char
  | ProxyType.HTTP => "http".toList
  | ProxyType.HTTPS => "https".toList
  | ProxyType.SOCKS4 => "socks4".toList
  | ProxyType.SOCKS5 => "socks5".toList

/-- The per-scheme default port of the NewProxy switch
(http 80, https 443, socks4 1080, socks5 1080). -/
def defaultPort : ProxyType → List Char
  | ProxyType.HTTP => "80".toList
  | ProxyType.HTTPS => "443".toList
  | ProxyType.SOCKS4 => "1080".toList
  | ProxyType.SOCKS5 => "1080".toList

/-- Counterexample to C7 as stated: NewProxy accepts `http://a:0`, whose
port value 0 is outside 1..=65535 — the parser performs no range validation
on an explicit port. -/
theorem c7_counterexample :
    ∃ p, NewProxy "http://a:0".toList = some p
      ∧ p.Host ≠ [] ∧ portNat p.Port < 1 :=
  ⟨⟨ProxyType.HTTP, "a".toList, "0".toList, [], []⟩, by decide, by decide,
    by decide⟩

/-- C7 (amended): every URL accepted by NewProxy yields an endpoint with a
non-empty host and a non-empty all-digits port string; the endpoint type is
the one named by the lower-cased URL scheme, the port is that scheme's
default (http 80, https 443, socks4 1080, socks5 1080) exactly when the URL
carries no port, and otherwise is passed through from the URL with no range
check, so values outside 1..=65535 are accepted. -/
theorem c7_parse_host_port_fields (raw : List Char) (p : Proxy)
    (h : NewProxy raw = some p) :
    p.Host ≠ [] ∧ p.Port ≠ [] ∧ p.Port.all isDigitCh = true
      ∧ ∃ u, urlParse (trimSpace raw) = some u ∧ p.Host = u.hostname
        ∧ u.scheme.map toLowerCh = schemeName p.ptype
        ∧ (u.port = [] → p.Port = defaultPort p.ptype)
        ∧ (u.port ≠ [] → p.Port = u.port) := by
  simp only [NewProxy] at h
  by_cases htr : trimSpace raw = []
  · rw [if_pos htr] at h
    exact absurd h (by simp)
  rw [if_neg htr] at h
  rcases hu : urlParse (trimSpace raw) with _ | u <;> rw [hu] at h
  · exact absurd h (by simp)
  dsimp only at h
  by_cases hh : u.hostname = []
  · rw [if_pos hh] at h
    exact absurd h (by simp)
  rw [if_neg hh] at h
  by_cases h1 : u.scheme.map toLowerCh = "http".toList
  · rw [if_pos h1] at h
    injection h with h2
    subst h2
    dsimp only
    refine ⟨hh, ?_, ?_, u, rfl, rfl, h1, ?_, ?_⟩
    · by_cases hpt : u.port = []
      · rw [if_pos hpt]; decide
      · rw [if_neg hpt]; exact hpt
    · by_cases hpt : u.port = []
      · rw [if_pos hpt]; decide
      · rw [if_neg hpt]; exact urlParse_digits hu
    · intro hpt; rw [if_pos hpt]; rfl
    · intro hpt; rw [if_neg hpt]
  rw [if_neg h1] at h
  by_cases h2s : u.scheme.map toLowerCh = "https".toList
  · rw [if_pos h2s] at h
    injection h with h2
    subst h2
    dsimp only
    refine ⟨hh, ?_, ?_, u, rfl, rfl, h2s, ?_, ?_⟩
    · by_cases hpt : u.port = []
      · rw [if_pos hpt]; decide
      · rw [if_neg hpt]; exact hpt
    · by_cases hpt : u.port = []
      · rw [if_pos hpt]; decide
      · rw [if_neg hpt]; exact urlParse_digits hu
    · intro hpt; rw [if_pos hpt]; rfl
    · intro hpt; rw [if_neg hpt]
  rw [if_neg h2s] at h
  by_cases h4 : u.scheme.map toLowerCh = "socks4".toList
  · rw [if_pos h4] at h
    injection h with h2
    subst h2
    dsimp only
    refine ⟨hh, ?_, ?_, u, rfl, rfl, h4, ?_, ?_⟩
    · by_cases hpt : u.port = []
      · rw [if_pos hpt]; decide
      · rw [if_neg hpt]; exact hpt
    · by_cases hpt : u.port = []
      · rw [if_pos hpt]; decide
      · rw [if_neg hpt]; exact urlParse_digits hu
    · intro hpt; rw [if_pos hpt]; rfl
    · intro hpt; rw [if_neg hpt]
  rw [if_neg h4] at h
  by_cases h5 : u.scheme.map toLowerCh = "socks5".toList
  · rw [if_pos h5] at h
    injection h with h2
    subst h2
    dsimp only
    refine ⟨hh, ?_, ?_, u, rfl, rfl, h5, ?_, ?_⟩
    · by_cases hpt : u.port = []
      · rw [if_pos hpt]; decide
      · rw [if_neg hpt]; exact hpt
    · by_cases hpt : u.port = []
      · rw [if_pos hpt]; decide
      · rw [if_neg hpt]; exact urlParse_digits hu
    · intro hpt; rw [if_pos hpt]; rfl
    · intro hpt; rw [if_neg hpt]
  rw [if_neg h5] at h
  exact absurd h (by simp)

/-- The endpoint `https://h` parses to (only used by the C7 witness). -/
def c7SampleProxy : Proxy :=
  ⟨ProxyType.HTTPS, "h".toList, "443".toList, [], []⟩

/-- C7 witness: the amended theorem applied to the concrete URL `https://h`,
which is accepted with host `h` and the scheme-default port 443. -/
theorem c7_parse_host_port_fields_witness :
    NewProxy "https://h".toList = some c7SampleProxy
      ∧ (c7SampleProxy.Host ≠ [] ∧ c7SampleProxy.Port ≠ []
        ∧ c7SampleProxy.Port.all isDigitCh = true
        ∧ ∃ u, urlParse (trimSpace "https://h".toList) = some u
          ∧ c7SampleProxy.Host = u.hostname
          ∧ u.scheme.map toLowerCh = schemeName c7SampleProxy.ptype
          ∧ (u.port = [] → c7SampleProxy.Port = defaultPort c7SampleProxy.ptype)
          ∧ (u.port ≠ [] → c7SampleProxy.Port = u.port)) :=
  ⟨by decide, c7_parse_host_port_fields "https://h".toList c7SampleProxy
    (by decide)⟩

end IpLoop

namespace IpLoop

/-
readRequest (pkg/server/server.go): the SOCKS5 request parser.  The network
connection is modeled as the list of bytes the client sends; io.ReadFull
succeeds exactly when enough bytes remain.  net.IP.String for IPv6 is
abstracted as a parameter (its output does not matter to any claim); for a
domain address the Go code converts the raw bytes with string(buf[:dlen]).
-/

/-- io.ReadFull of `n` bytes from the stream. -/
def readFull (n : Nat) (input : List Nat) : Option (List Nat × List Nat) :=
  if n ≤ input.length then some (input.take n, input.drop n) else none

/-- net.IP.String for four bytes: dotted decimal. -/
def ipv4Str (bs : List Nat) : String :=
  String.intercalate "." (bs.map (fun b => toString b))

/-- Go string(bytes) (byte-to-char, enough for the ASCII hosts at issue). -/
def bytesStr (bs : List Nat) : String := String.mk (bs.map Char.ofNat)

/-- server.go readRequest: version/command checks, address dispatch on
buf[3] (1 = IPv4, 3 = domain with a length byte, 4 = IPv6), then the
big-endian port; the result is Sprintf "%s:%d".  Note the domain arm reads
`dlen` with no lower bound: a zero length byte reads zero domain bytes. -/
def readRequest (ipv6Str : List Nat → String) (input : List Nat) :
    Option String :=
  match readFull 4 input with
  | none => none
  | some (hdr, rest1) =>
    if hdr.getD 0 0 ≠ 5 then none
    else if hdr.getD 1 0 ≠ 1 then none
    else
      let atyp := hdr.getD 3 0
      let hostRest : Option (String × List Nat) :=
        if atyp = 1 then
          match readFull 4 rest1 with
          | none => none
          | some (ip, rest2) => some (ipv4Str ip, rest2)
        else if atyp = 3 then
          match readFull 1 rest1 with
          | none => none
          | some (l, rest2) =>
            let dlen := l.getD 0 0
            match readFull dlen rest2 with
            | none => none
            | some (dom, rest3) => some (bytesStr dom, rest3)
        else if atyp = 4 then
          match readFull 16 rest1 with
          | none => none
          | some (ip, rest2) => some (ipv6Str ip, rest2)
        else none
      match hostRest with
      | none => none
      | some (host, rest2) =>
        match readFull 2 rest2 with
        | none => none
        | some (pb, _) =>
          let port := (pb.getD 0 0) <<< 8 ||| pb.getD 1 0
          some (host ++ ":" ++ toString port)

/-- Reading exactly the bytes that are there. -/
theorem readFull_exact (xs rest : List Nat) :
    readFull xs.length (xs ++ rest) = some (xs, rest) := by
  unfold readFull
  rw [if_pos (by simp)]
  rw [List.take_left, List.drop_left]

/-- C10: a CONNECT request with address type 3 (domain) and length byte 0 is
accepted by readRequest, which returns the target `:<port>` with an empty
host — the parser has no lower-bound validation on the domain length.  The
port is read big-endian from the final two bytes. -/
theorem c10_zero_length_domain_accepted (ph pl : Nat) (rest : List Nat)
    (ipv6Str : List Nat → String) (hpl : pl < 256) :
    readRequest ipv6Str (5 :: 1 :: 0 :: 3 :: 0 :: ph :: pl :: rest)
      = some (":" ++ toString (ph * 256 + pl)) := by
  have h1 : readFull 4 (5 :: 1 :: 0 :: 3 :: 0 :: ph :: pl :: rest)
      = some ([5, 1, 0, 3], 0 :: ph :: pl :: rest) :=
    readFull_exact [5, 1, 0, 3] (0 :: ph :: pl :: rest)
  have h2 : readFull 1 (0 :: ph :: pl :: rest)
      = some ([0], ph :: pl :: rest) :=
    readFull_exact [0] (ph :: pl :: rest)
  have h3 : readFull 0 (ph :: pl :: rest) = some ([], ph :: pl :: rest) :=
    readFull_exact [] (ph :: pl :: rest)
  have h4 : readFull 2 (ph :: pl :: rest) = some ([ph, pl], rest) :=
    readFull_exact [ph, pl] rest
  have hport : ph <<< 8 ||| pl = ph * 256 + pl := by
    rw [shiftLeft_or_eq_add ph (show pl < 2 ^ 8 by omega)]
    norm_num
  rw [readRequest, h1]
  norm_num
  rw [h2]
  simp only [List.getElem?_cons_zero, List.getElem?_cons_succ,
    Option.getD_some]
  rw [h3]
  dsimp only
  rw [h4]
  simp only [List.getElem?_cons_zero, List.getElem?_cons_succ,
    Option.getD_some]
  rw [hport]
  rfl

/-- C10 witness: the request header 05 01 00 03, length byte 00, port 80
yields the empty-host target `:80`. -/
theorem c10_zero_length_domain_accepted_witness :
    (80 : Nat) < 256
      ∧ readRequest (fun _ => "") (5 :: 1 :: 0 :: 3 :: 0 :: 0 :: 80 :: [])
        = some (":" ++ toString (0 * 256 + 80)) :=
  ⟨by decide, c10_zero_length_domain_accepted 0 80 [] (fun _ => "")
    (by decide)⟩

end IpLoop
